import Mathlib

/-!
Verification development for the deckgym simulation core.

The repository's visible source is the Python binding shim
`src/python/deckgym/__init__.py`; the native simulation core it wraps
(card catalog, game state machine, action resolver, strategies, and the
Monte Carlo simulation driver) is not part of the visible sources, so
those components are modelled here from the specification's words.
The binding shim itself is embedded directly from the Python source.
-/

namespace DeckGym

/-- Modelled from the spec: "EnergyType: a closed enumeration (e.g., Fire,
Water, Grass, …, Colorless)" (the native core's energy-type enum is not in
the visible sources). -/
inductive EnergyType where
  | grass
  | fire
  | water
  | lightning
  | psychic
  | fighting
  | darkness
  | metal
  | colorless
deriving DecidableEq, Repr

/-- All energy types, used to enumerate candidate actions and to check
cost coverage type-by-type. -/
def allEnergyTypes : List EnergyType :=
  [.grass, .fire, .water, .lightning, .psychic, .fighting, .darkness, .metal, .colorless]

/-- Modelled from the spec: a damage modifier contributed by an active
effect — "flat additions before multiplicative, ties broken by application
order of effect registration" (the native effect representation is not in
the visible sources; the spec maps effects to a tagged-variant
representation interpreted by the Resolver). -/
inductive Modifier where
  | flat (n : Nat)
  | mult (n : Nat)
deriving DecidableEq, Repr

def Modifier.isFlat : Modifier → Bool
  | .flat _ => true
  | .mult _ => false

/-- Apply one modifier to a damage value. -/
def Modifier.applyTo (d : Nat) : Modifier → Nat
  | .flat n => d + n
  | .mult n => d * n

/-- Modelled from the spec: "Attack: belongs to a Card; has a name, an
energy cost (multiset of EnergyType, order irrelevant), a base damage
value, and an effect (possibly none) applied on resolution." -/
structure Attack where
  name : String
  cost : List EnergyType
  baseDamage : Nat
  effect : Option Modifier
deriving DecidableEq, Repr

/-- Modelled from the spec: "Ability: belongs to a Card; has a trigger
condition (e.g., once-per-turn, on-play) and an effect." The once-per-turn
trigger is tracked by the PlayedCard usage flag. -/
structure Ability where
  name : String
  effect : Modifier
deriving DecidableEq, Repr

/-- Modelled from the spec: Card category (Pokémon/Trainer/Energy). -/
inductive CardCategory where
  | pokemon
  | trainer
  | energy
deriving DecidableEq, Repr

/-- Modelled from the spec: "Card: immutable catalog entry — identity,
category (Pokémon/Trainer/Energy), stat block (HP, type, retreat cost),
zero-or-more Attacks, zero-or-one Ability." `effect` is the immediate
effect triggered when a Trainer card is played. -/
structure Card where
  id : Nat
  name : String
  category : CardCategory
  hp : Nat
  energyType : EnergyType
  retreatCost : Nat
  attacks : List Attack
  ability : Option Ability
  effect : Option Modifier
deriving DecidableEq, Repr

/-- Modelled from the spec: status conditions tracked on a PlayedCard;
poison deals end-of-turn damage ("applies end-of-turn effects (status
damage, expiring conditions)"). -/
inductive Status where
  | poisoned
deriving DecidableEq, Repr

/-- Modelled from the spec: "PlayedCard: a mutable runtime wrapper around
a Card instance placed into a zone — tracks current damage taken, attached
energies (ordered multiset of EnergyType), status conditions, and per-turn
usage flags (e.g., ability already used, just-played this turn)." -/
structure PlayedCard where
  card : Card
  damageTaken : Nat
  attached : List EnergyType
  status : List Status
  abilityUsed : Bool
  justPlayed : Bool
deriving DecidableEq, Repr

/-- A freshly played card: no damage, no energy, just-played flag set. -/
def PlayedCard.fresh (c : Card) : PlayedCard :=
  { card := c, damageTaken := 0, attached := [], status := [],
    abilityUsed := false, justPlayed := true }

/-- Remaining HP of a PlayedCard (damage is accumulated, never healed in
this model). -/
def PlayedCard.remainingHp (pc : PlayedCard) : Nat :=
  pc.card.hp - pc.damageTaken

/-- Ruleset constants of the default ruleset modelled from the spec:
20-card decks, copy limit 2, bench bound, prize threshold, knockout value,
one energy attachment per turn, opening hand of 5. -/
def deckSize : Nat := 20

def copyLimit : Nat := 2

def benchBound : Nat := 3

def pointThreshold : Nat := 3

def knockoutValue : Nat := 1

def energyPerTurn : Nat := 1

def initialHandSize : Nat := 5

def poisonDamage : Nat := 10

/-- Modelled from the spec: "Deck: an ordered sequence of Card references
(exactly the deck size required by the ruleset)". -/
structure Deck where
  cards : List Card
deriving DecidableEq, Repr

/-- Modelled from the spec: the error taxonomy of §7. -/
inductive DeckError where
  | invalidDeckError
deriving DecidableEq, Repr

/-- Modelled from the spec: "build(cards) -> Deck validates copy-count and
size constraints, fails with InvalidDeckError". -/
def Deck.build (cards : List Card) : Except DeckError Deck :=
  if cards.length ≠ deckSize then .error .invalidDeckError
  else if cards.any (fun c => copyLimit < cards.countP (fun d => d.id == c.id)) then
    .error .invalidDeckError
  else .ok ⟨cards⟩

/-- A 64-bit linear congruential step, the model's deterministic RNG. -/
def lcg (s : Nat) : Nat :=
  (6364136223846793005 * s + 1442695040888963407) % (2 ^ 64)

/-- Deterministic shuffle: repeatedly rotate by the RNG value and take the
head.  A pure function of the seed, so games are reproducible. -/
def shuffleGo : Nat → Nat → List Card → List Card
  | 0, _, l => l
  | fuel + 1, seed, l =>
    match l.rotate (seed % l.length) with
    | [] => []
    | x :: xs => x :: shuffleGo fuel (lcg seed) xs

/-- Modelled from the spec: "shuffle(rng_seed) -> Deck returns a
deterministically shuffled order given a seed, enabling reproducible
games". -/
def Deck.shuffle (d : Deck) (seed : Nat) : Deck :=
  ⟨shuffleGo d.cards.length seed d.cards⟩

theorem shuffleGo_perm (fuel : Nat) : ∀ (seed : Nat) (l : List Card),
    (shuffleGo fuel seed l).Perm l := by
  induction fuel with
  | zero => intro seed l; simp [shuffleGo]
  | succ n ih =>
    intro seed l
    have hrot : (l.rotate (seed % l.length)).Perm l := l.rotate_perm _
    simp only [shuffleGo]
    cases hc : l.rotate (seed % l.length) with
    | nil =>
      rw [hc] at hrot
      exact hrot
    | cons x xs =>
      rw [hc] at hrot
      exact ((ih (lcg seed) xs).cons x).trans hrot

theorem shuffle_perm (d : Deck) (seed : Nat) :
    (d.shuffle seed).cards.Perm d.cards :=
  shuffleGo_perm _ _ _

/-- The two players of one game. -/
inductive Player where
  | a
  | b
deriving DecidableEq, Repr

def Player.other : Player → Player
  | .a => .b
  | .b => .a

/-- Modelled from the spec: per-player part of the State — "for each
player: deck (remaining draw pile), hand, discard pile, active PlayedCard
slot, bench PlayedCard slots (bounded count), prize/point counter" plus
the per-turn energy allowance of §4.3. -/
structure PlayerState where
  deck : List Card
  hand : List Card
  discard : List Card
  active : Option PlayedCard
  bench : List PlayedCard
  points : Nat
  energyAllowance : Nat
deriving DecidableEq, Repr

/-- Modelled from the spec: the phase marker of the state machine
"Setup → TurnStart → ActionPhase → TurnEnd → (next TurnStart | Terminal)".
Setup, TurnStart and TurnEnd processing are applied atomically by the
Resolver, so between Resolver calls a live game always sits in
ActionPhase. -/
inductive Phase where
  | setup
  | turnStart
  | actionPhase
  | turnEnd
  | terminal
deriving DecidableEq, Repr

/-- Modelled from the spec: "GameOutcome: terminal classification —
Win(player), Loss(player), Tie, or Aborted(reason)". -/
inductive GameOutcome where
  | win (p : Player)
  | loss (p : Player)
  | tie
  | aborted (reason : String)
deriving DecidableEq, Repr

/-- Modelled from the spec: "State: the full mutable snapshot — for each
player … plus shared turn number, active player, and phase marker".
`modifiers` is the list of damage modifiers registered by active effects,
kept in registration order. -/
structure State where
  pa : PlayerState
  pb : PlayerState
  turn : Nat
  current : Player
  phase : Phase
  outcome : Option GameOutcome
  modifiers : List Modifier
deriving DecidableEq, Repr

def State.player (s : State) : Player → PlayerState
  | .a => s.pa
  | .b => s.pb

def State.setPlayer (s : State) : Player → PlayerState → State
  | .a, ps => { s with pa := ps }
  | .b, ps => { s with pb := ps }

/-- A PlayedCard slot of one player: the active slot or a bench index. -/
inductive Target where
  | active
  | bench (i : Nat)
deriving DecidableEq, Repr

def PlayerState.getSlot (ps : PlayerState) : Target → Option PlayedCard
  | .active => ps.active
  | .bench i => ps.bench.get? i

/-- Replace the element at an index, leaving other positions unchanged. -/
def modifyAt (f : α → α) : Nat → List α → List α
  | _, [] => []
  | 0, x :: xs => f x :: xs
  | i + 1, x :: xs => x :: modifyAt f i xs

def PlayerState.modifySlot (ps : PlayerState) (t : Target)
    (f : PlayedCard → PlayedCard) : PlayerState :=
  match t with
  | .active => { ps with active := ps.active.map f }
  | .bench i => { ps with bench := modifyAt f i ps.bench }

/-- Modelled from the spec: the single legal actions of §4.3 — attach
energy, play a card, declare an attack, use an ability, retreat, end
turn.  For `playCard` of a Pokémon, `toBench` selects bench versus the
active slot; Trainer cards use `toBench = false`. -/
inductive Action where
  | attachEnergy (e : EnergyType) (t : Target)
  | playCard (i : Nat) (toBench : Bool)
  | attack (i : Nat)
  | useAbility (t : Target)
  | retreat (i : Nat)
  | endTurn
deriving DecidableEq, Repr

/-- Modelled from the spec: attached energies cover an attack cost
"type-for-type plus Colorless-fills-any": every concrete (non-Colorless)
cost type must be covered by energies of that exact type, and the total
attached count must cover the total cost (the surplus fills the Colorless
slots). -/
def coversCost (attached cost : List EnergyType) : Bool :=
  cost.length ≤ attached.length &&
    allEnergyTypes.all fun t =>
      t == .colorless || cost.count t ≤ attached.count t

/-- Modelled from the spec: error taxonomy of §7 for Resolver calls. -/
inductive ResolverError where
  | illegalActionError
  | terminatedGameError
deriving DecidableEq, Repr

/-- Modelled from the spec: Resolver legality validation — "correct
phase, sufficient energy, not already used this turn, target exists". -/
def isLegal (s : State) (a : Action) : Bool :=
  s.phase == .actionPhase &&
  match a with
  | .attachEnergy _ t =>
    1 ≤ (s.player s.current).energyAllowance &&
      ((s.player s.current).getSlot t).isSome
  | .playCard i toBench =>
    match (s.player s.current).hand.get? i with
    | none => false
    | some c =>
      match c.category with
      | .pokemon =>
        if toBench then (s.player s.current).bench.length < benchBound
        else (s.player s.current).active.isNone
      | .trainer => !toBench
      | .energy => false
  | .attack i =>
    match (s.player s.current).active with
    | none => false
    | some pc =>
      match pc.card.attacks.get? i with
      | none => false
      | some atk =>
        coversCost pc.attached atk.cost &&
          ((s.player s.current.other).active).isSome
  | .useAbility t =>
    match (s.player s.current).getSlot t with
    | none => false
    | some pc => pc.card.ability.isSome && !pc.abilityUsed
  | .retreat i =>
    match (s.player s.current).active, (s.player s.current).bench.get? i with
    | some pc, some _ => pc.card.retreatCost ≤ pc.attached.length
    | _, _ => false
  | .endTurn => true

/-- A player has no legal active or bench Pokémon left. -/
def PlayerState.hasNoPokemon (ps : PlayerState) : Bool :=
  ps.active.isNone && ps.bench.isEmpty

/-- Modelled from the spec: "a player reaching the prize-point threshold,
or whose opponent has no legal active/bench Pokémon, wins". -/
def winCond (s : State) (p : Player) : Bool :=
  decide (pointThreshold ≤ (s.player p).points) ||
    (s.player p.other).hasNoPokemon

/-- Modelled from the spec: "Win check runs after every state-mutating
action … if both conditions trigger simultaneously the result is a
Tie." -/
def checkWin (s : State) : State :=
  if s.outcome.isSome then s
  else
    match winCond s .a, winCond s .b with
    | true, true => { s with outcome := some .tie, phase := .terminal }
    | true, false => { s with outcome := some (.win .a), phase := .terminal }
    | false, true => { s with outcome := some (.win .b), phase := .terminal }
    | false, false => s

/-- Append an effect's damage modifier to the registration-ordered list. -/
def registerEffect (s : State) (m : Option Modifier) : State :=
  match m with
  | none => s
  | some m => { s with modifiers := s.modifiers ++ [m] }

/-- Modelled from the spec: damage computation — "base damage + modifiers
from active effects, order of modifier application: flat additions before
multiplicative, ties broken by application order of effect registration".
The registered modifier list is stably partitioned into flat modifiers
followed by multiplicative ones and folded over the base damage. -/
def computeDamage (base : Nat) (ms : List Modifier) : Nat :=
  (ms.filter Modifier.isFlat ++ ms.filter fun m => !m.isFlat).foldl
    Modifier.applyTo base

/-- Reset per-turn usage flags on a PlayedCard at turn end. -/
def PlayedCard.clearTurnFlags (pc : PlayedCard) : PlayedCard :=
  { pc with abilityUsed := false, justPlayed := false }

def PlayerState.resetTurnFlags (ps : PlayerState) : PlayerState :=
  { ps with
    energyAllowance := energyPerTurn,
    active := ps.active.map PlayedCard.clearTurnFlags,
    bench := ps.bench.map PlayedCard.clearTurnFlags }

/-- Knock out the active PlayedCard of a player state: its Card goes to
the discard pile and the first bench Pokémon (if any) is promoted. -/
def PlayerState.knockOutActive (ps : PlayerState) (pc : PlayedCard) :
    PlayerState :=
  { ps with
    active := ps.bench.head?,
    bench := ps.bench.tail,
    discard := pc.card :: ps.discard }

/-- Modelled from the spec: end-of-turn status damage — a poisoned active
Pokémon takes poison damage; a resulting knockout awards the knockout
value to the opponent. -/
def applyPoison (s : State) : State :=
  let cur := s.current
  match (s.player cur).active with
  | none => s
  | some pc =>
    if pc.status.contains .poisoned then
      if pc.remainingHp ≤ poisonDamage then
        let ps := (s.player cur).knockOutActive pc
        let opp := cur.other
        let os := s.player opp
        checkWin ((s.setPlayer cur ps).setPlayer opp
          { os with points := os.points + knockoutValue })
      else
        s.setPlayer cur
          { s.player cur with
            active := some { pc with damageTaken := pc.damageTaken + poisonDamage } }
    else s

/-- Modelled from the spec: TurnEnd processing — "advances to TurnEnd,
applies end-of-turn effects (status damage, expiring conditions), draws
for the next player (fails the game with Loss(that player) if their deck
is empty and a draw is required), switches active player, advances turn
counter". -/
def processTurnEnd (s : State) : State :=
  let s1 := applyPoison s
  if s1.outcome.isSome then s1
  else
    let nxt := s1.current.other
    match (s1.player nxt).deck with
    | [] => { s1 with outcome := some (.loss nxt), phase := .terminal }
    | c :: rest =>
      let ns := ((s1.player nxt).resetTurnFlags)
      let ns2 := { ns with deck := rest, hand := c :: ns.hand }
      { s1.setPlayer nxt ns2 with
        current := nxt, turn := s1.turn + 1, phase := .actionPhase }

/-- Modelled from the spec: resolution of a declared attack — verify has
already happened in `isLegal`; compute damage with modifiers, apply it to
the defender's active PlayedCard, check knockout (damage ≥ remaining HP),
move the knocked-out Card to the discard pile, promote from the bench, and
award the ruleset knockout value to the attacker exactly once; finally
register the attack's own effect. -/
def resolveAttack (s : State) (i : Nat) : State :=
  let cur := s.current
  let opp := cur.other
  match (s.player cur).active with
  | none => s
  | some atkPc =>
    match atkPc.card.attacks.get? i with
    | none => s
    | some atk =>
      match (s.player opp).active with
      | none => s
      | some defPc =>
        let dmg := computeDamage atk.baseDamage s.modifiers
        let s1 :=
          if defPc.remainingHp ≤ dmg then
            let os := (s.player opp).knockOutActive defPc
            let ps := s.player cur
            (s.setPlayer cur { ps with points := ps.points + knockoutValue
              }).setPlayer opp os
          else
            s.setPlayer opp
              { s.player opp with
                active := some { defPc with damageTaken := defPc.damageTaken + dmg } }
        registerEffect s1 atk.effect

/-- Modelled from the spec: application of one legal action (§4.3);
legality has already been validated.  Attack and retreat end the action
phase, so TurnEnd processing runs unless the win check terminated the
game. -/
def resolve (s : State) (a : Action) : State :=
  let cur := s.current
  match a with
  | .attachEnergy e t =>
    let ps := s.player cur
    let ps1 := ps.modifySlot t fun pc => { pc with attached := pc.attached ++ [e] }
    checkWin (s.setPlayer cur { ps1 with energyAllowance := ps1.energyAllowance - 1 })
  | .playCard i toBench =>
    let ps := s.player cur
    match ps.hand.get? i with
    | none => s
    | some c =>
      let hand1 := ps.hand.eraseIdx i
      match c.category with
      | .pokemon =>
        let pc := PlayedCard.fresh c
        let ps1 :=
          if toBench then { ps with hand := hand1, bench := ps.bench ++ [pc] }
          else { ps with hand := hand1, active := some pc }
        checkWin (s.setPlayer cur ps1)
      | .trainer =>
        let ps1 := { ps with hand := hand1, discard := c :: ps.discard }
        checkWin (registerEffect (s.setPlayer cur ps1) c.effect)
      | .energy => s
  | .attack i =>
    let s1 := checkWin (resolveAttack s i)
    if s1.outcome.isSome then s1 else processTurnEnd s1
  | .useAbility t =>
    let ps := s.player cur
    match ps.getSlot t with
    | none => s
    | some pc =>
      match pc.card.ability with
      | none => s
      | some ab =>
        let ps1 := ps.modifySlot t fun q => { q with abilityUsed := true }
        checkWin (registerEffect (s.setPlayer cur ps1) (some ab.effect))
  | .retreat i =>
    let ps := s.player cur
    match ps.active, ps.bench.get? i with
    | some pc, some nb =>
      let pc1 := { pc with attached := pc.attached.drop pc.card.retreatCost }
      let ps1 := { ps with active := some nb, bench := modifyAt (fun _ => pc1) i ps.bench }
      let s1 := checkWin (s.setPlayer cur ps1)
      if s1.outcome.isSome then s1 else processTurnEnd s1
    | _, _ => s
  | .endTurn =>
    let s1 := checkWin s
    if s1.outcome.isSome then s1 else processTurnEnd s1

/-- Modelled from the spec: one Resolver call — "illegal proposals fail
with IllegalActionError and must not mutate state; legal actions apply
deterministically"; "A State reaching Terminal is immutable thereafter;
any further Resolver call fails with TerminatedGameError". -/
def applyAction (s : State) (a : Action) : Except ResolverError State :=
  if s.outcome.isSome then .error .terminatedGameError
  else if isLegal s a then .ok (resolve s a)
  else .error .illegalActionError

/-- The state-and-error view of a Resolver call: on failure the caller
keeps the original State unchanged. -/
def applyActionKeep (s : State) (a : Action) : State × Option ResolverError :=
  match applyAction s a with
  | .ok s1 => (s1, none)
  | .error e => (s, some e)

/-- The slots of a player state that can be targeted. -/
def PlayerState.targets (ps : PlayerState) : List Target :=
  .active :: (List.range ps.bench.length).map .bench

/-- All syntactically possible actions in the current position, before
legality filtering.  Complete: every action `isLegal` accepts occurs in
this list. -/
def candidateActions (s : State) : List Action :=
  let ps := s.player s.current
  (allEnergyTypes.flatMap fun e => ps.targets.map (Action.attachEnergy e))
    ++ ((List.range ps.hand.length).flatMap fun i =>
        [Action.playCard i false, Action.playCard i true])
    ++ (match ps.active with
        | some pc => (List.range pc.card.attacks.length).map Action.attack
        | none => [])
    ++ ps.targets.map Action.useAbility
    ++ (List.range ps.bench.length).map Action.retreat
    ++ [Action.endTurn]

/-- Modelled from the spec: "Legal-action set: the set of actions the
Resolver currently permits, recomputed after every state change." -/
def legalActions (s : State) : List Action :=
  (candidateActions s).filter (isLegal s)

/-- Modelled from the spec: the capability-restricted view handed to
strategies — the acting player's own information.  The player's own draw
pile order is itself hidden, so the own deck appears as a count. -/
structure OwnView where
  hand : List Card
  deckCount : Nat
  discard : List Card
  active : Option PlayedCard
  bench : List PlayedCard
  points : Nat
  energyAllowance : Nat
deriving DecidableEq, Repr

/-- Modelled from the spec: the opponent's side as visible to a strategy —
"exposing hidden zones only as counts, not contents": hidden hand and deck
order appear only as counts; discard, in-play cards and points are
public. -/
structure OppView where
  handCount : Nat
  deckCount : Nat
  discard : List Card
  active : Option PlayedCard
  bench : List PlayedCard
  points : Nat
deriving DecidableEq, Repr

/-- Modelled from the spec: "the Resolver hands strategies a projection of
State with concealed zones reduced to counts, not a reference to the full
State". -/
structure StrategyView where
  own : OwnView
  opp : OppView
  turn : Nat
  current : Player
  phase : Phase
  modifiers : List Modifier
deriving DecidableEq, Repr

def ownViewOf (ps : PlayerState) : OwnView :=
  { hand := ps.hand, deckCount := ps.deck.length, discard := ps.discard,
    active := ps.active, bench := ps.bench, points := ps.points,
    energyAllowance := ps.energyAllowance }

def oppViewOf (ps : PlayerState) : OppView :=
  { handCount := ps.hand.length, deckCount := ps.deck.length,
    discard := ps.discard, active := ps.active, bench := ps.bench,
    points := ps.points }

/-- The projection of the State handed to player `p`'s strategy. -/
def viewFor (p : Player) (s : State) : StrategyView :=
  { own := ownViewOf (s.player p), opp := oppViewOf (s.player p.other),
    turn := s.turn, current := s.current, phase := s.phase,
    modifiers := s.modifiers }

/-- Two States agree on everything a given player may observe and differ
at most in the contents of the zones concealed from that player: the
opponent's hand and draw-pile contents, which must only agree in count. -/
def ConcealedEquiv (p : Player) (s1 s2 : State) : Prop :=
  s1.player p = s2.player p ∧
  (s1.player p.other).hand.length = (s2.player p.other).hand.length ∧
  (s1.player p.other).deck.length = (s2.player p.other).deck.length ∧
  (s1.player p.other).discard = (s2.player p.other).discard ∧
  (s1.player p.other).active = (s2.player p.other).active ∧
  (s1.player p.other).bench = (s2.player p.other).bench ∧
  (s1.player p.other).points = (s2.player p.other).points ∧
  s1.turn = s2.turn ∧ s1.current = s2.current ∧ s1.phase = s2.phase ∧
  s1.modifiers = s2.modifiers

/-- Modelled from the spec: "get_player_types enumerates the available
variant identifiers so callers can select by name"; "at minimum a
uniform-random strategy and one or more heuristic/search-based
strategies". -/
def get_player_types : List String := ["random", "heuristic"]

/-- Heuristic preference: declare an attack when one is legal, otherwise
take the first legal non-endTurn action, otherwise end the turn. -/
def heuristicChoice (legal : List Action) : Option Action :=
  match legal.find? fun a => match a with | .attack _ => true | _ => false with
  | some a => some a
  | none =>
    match legal.find? fun a => !(a == Action.endTurn) with
    | some a => some a
    | none => legal.head?

/-- Modelled from the spec: "choose_action(state, legal_actions) ->
action, pure with respect to State (may use internal randomness/seed but
must not mutate State)".  The strategy receives only the restricted
StrategyView projection, never the full State. -/
def chooseAction (strat : String) (v : StrategyView) (legal : List Action)
    (r : Nat) : Option Action :=
  if strat == "random" then legal.get? (r % legal.length)
  else if strat == "heuristic" then
    match v.own.active with
    | none =>
      match legal.find? fun a =>
          match a with | .playCard _ false => true | _ => false with
      | some a => some a
      | none => heuristicChoice legal
    | some _ => heuristicChoice legal
  else none

/-- Draw the opening hand: move the first `n` cards of the draw pile to
the hand. -/
def PlayerState.drawOpening (ps : PlayerState) (n : Nat) : PlayerState :=
  { ps with deck := ps.deck.drop n, hand := ps.deck.take n ++ ps.hand }

/-- Modelled from the spec: per-player setup — shuffle the deck with a
seed derived from the game seed and draw the opening hand. -/
def initPlayer (d : Deck) (seed : Nat) : PlayerState :=
  let shuffled := (d.shuffle seed).cards
  { deck := shuffled.drop initialHandSize,
    hand := shuffled.take initialHandSize,
    discard := [], active := none, bench := [],
    points := 0, energyAllowance := energyPerTurn }

/-- Modelled from the spec: Setup — draws opening hands and enters the
first ActionPhase with player A to act.  (Mulligans are not modelled:
placing an active Pokémon happens through `playCard` actions.) -/
def initGame (da db : Deck) (seed : Nat) : State :=
  { pa := initPlayer da (lcg seed),
    pb := initPlayer db (lcg (lcg seed)),
    turn := 1, current := .a, phase := .actionPhase,
    outcome := none, modifiers := [] }

/-- Modelled from the spec: alternate Strategy decisions through the
Resolver until a terminal outcome; "a single game reaching an
unrecoverable illegal internal state yields Aborted(reason) for that game
only".  The fuel bound makes the loop total; running out of fuel is such
an unrecoverable condition. -/
def runGameLoop (sa sb : String) : Nat → State → Nat → GameOutcome
  | 0, _, _ => .aborted "step limit exceeded"
  | fuel + 1, s, rng =>
    match s.outcome with
    | some o => o
    | none =>
      let strat := match s.current with | .a => sa | .b => sb
      let legal := legalActions s
      match chooseAction strat (viewFor s.current s) legal (rng % (2 ^ 32)) with
      | none => .aborted "strategy returned no action"
      | some a =>
        match applyAction s a with
        | .ok s1 => runGameLoop sa sb fuel s1 (lcg rng)
        | .error _ => .aborted "resolver rejected strategy action"

/-- Fuel bound for one game: far beyond any reachable game length. -/
def maxGameSteps : Nat := 10000

/-- Modelled from the spec: run one game Setup→…→Terminal from a per-game
seed, producing its GameOutcome. -/
def runGame (da db : Deck) (sa sb : String) (seed : Nat) : GameOutcome :=
  runGameLoop sa sb maxGameSteps (initGame da db seed) (lcg seed)

/-- Modelled from the spec: "SimulationResults: aggregated counts of
GameOutcome … across a batch of simulated games". -/
structure SimulationResults where
  winsA : Nat
  winsB : Nat
  lossesA : Nat
  lossesB : Nat
  ties : Nat
  abortedCount : Nat
deriving DecidableEq, Repr

def SimulationResults.empty : SimulationResults :=
  ⟨0, 0, 0, 0, 0, 0⟩

/-- Record one game's outcome into the accumulator. -/
def SimulationResults.record (r : SimulationResults) :
    GameOutcome → SimulationResults
  | .win .a => { r with winsA := r.winsA + 1 }
  | .win .b => { r with winsB := r.winsB + 1 }
  | .loss .a => { r with lossesA := r.lossesA + 1 }
  | .loss .b => { r with lossesB := r.lossesB + 1 }
  | .tie => { r with ties := r.ties + 1 }
  | .aborted _ => { r with abortedCount := r.abortedCount + 1 }

/-- Modelled from the spec: merging partial results from parallel workers
"must be associative and commutative (simple counters/sums)". -/
def SimulationResults.merge (r q : SimulationResults) : SimulationResults :=
  ⟨r.winsA + q.winsA, r.winsB + q.winsB, r.lossesA + q.lossesA,
   r.lossesB + q.lossesB, r.ties + q.ties, r.abortedCount + q.abortedCount⟩

/-- Total number of games recorded in a result. -/
def SimulationResults.total (r : SimulationResults) : Nat :=
  r.winsA + r.winsB + r.lossesA + r.lossesB + r.ties + r.abortedCount

/-- Modelled from the spec: "derives a per-game seed deterministically
from the base seed and index … a pure function, not shared mutable global
state". -/
def perGameSeed (base i : Nat) : Nat :=
  lcg ((base + 2654435769 * i) % (2 ^ 64))

/-- One worker's batch: fold the games at the given indices into an
accumulator. -/
def runBatchFrom (da db : Deck) (sa sb : String) (seed : Nat)
    (acc : SimulationResults) (idxs : List Nat) : SimulationResults :=
  idxs.foldl (fun r i => r.record (runGame da db sa sb (perGameSeed seed i))) acc

def runBatch (da db : Deck) (sa sb : String) (seed : Nat)
    (idxs : List Nat) : SimulationResults :=
  runBatchFrom da db sa sb seed SimulationResults.empty idxs

/-- Split a list into contiguous chunks of at most `max k 1` elements, as
handed to parallel workers. -/
def chunksOf (k : Nat) : List α → List (List α)
  | [] => []
  | x :: xs => (x :: xs.take (k - 1)) :: chunksOf k (xs.drop (k - 1))
termination_by l => l.length
decreasing_by
  simp only [List.length_cons]
  exact Nat.lt_succ_of_le (xs.length_drop _ ▸ Nat.sub_le _ _)

/-- Modelled from the spec: configuration errors — "rejected before any
work starts". -/
inductive ConfigError where
  | configurationError
deriving DecidableEq, Repr

/-- Modelled from the spec: the simulation driver
`simulate(deck_a, deck_b, strategy_a, strategy_b, num_games, seed,
parallelism)`.  Fails fast with ConfigurationError if `num_games ≤ 0` or a
requested strategy id is unknown; otherwise splits the game indices into
per-worker chunks, runs each worker's games from per-game seeds, and
merges the workers' partial results. -/
def py_simulate (da db : Deck) (sa sb : String) (numGames : Int)
    (seed : Nat) (parallelism : Nat) : Except ConfigError SimulationResults :=
  if numGames ≤ 0 ∨ sa ∉ get_player_types ∨ sb ∉ get_player_types ∨
      parallelism = 0 then
    .error .configurationError
  else
    let n := numGames.toNat
    let chunkSize := (n + parallelism - 1) / parallelism
    .ok (((chunksOf chunkSize (List.range n)).map
      (runBatch da db sa sb seed)).foldl SimulationResults.merge
        SimulationResults.empty)

/-- The per-player card multiset conserved by the Resolver: draw pile +
hand + discard pile + in-play cards (active slot and bench). -/
def inPlayCards (ps : PlayerState) : List Card :=
  (ps.active.toList ++ ps.bench).map PlayedCard.card

def PlayerState.cardMultiset (ps : PlayerState) : Multiset Card :=
  (ps.deck : Multiset Card) + (ps.hand : Multiset Card) +
    (ps.discard : Multiset Card) + (inPlayCards ps : Multiset Card)

/-- States reachable from game Setup by sequences of successful Resolver
calls. -/
inductive Reachable (da db : Deck) (seed : Nat) : State → Prop where
  | init : Reachable da db seed (initGame da db seed)
  | step {s a s1} : Reachable da db seed s → applyAction s a = .ok s1 →
      Reachable da db seed s1

/-! ### The Python binding shim, embedded from `src/python/deckgym/__init__.py` -/

/-- A Python module as seen by the import machinery: a map from attribute
names to object identities. -/
structure PyModule where
  attrs : List (String × Nat)

def PyModule.lookup (m : PyModule) (n : String) : Option Nat :=
  (m.attrs.find? fun pr => pr.1 == n).map Prod.snd

/-- The `alias as native-name` pairs of the shim's `from .deckgym import`
statement, in source order. -/
def importPairs : List (String × String) :=
  [("EnergyType", "PyEnergyType"),
   ("Attack", "PyAttack"),
   ("Ability", "PyAbility"),
   ("Card", "PyCard"),
   ("PlayedCard", "PyPlayedCard"),
   ("Deck", "PyDeck"),
   ("Game", "PyGame"),
   ("State", "PyState"),
   ("GameOutcome", "PyGameOutcome"),
   ("SimulationResults", "PySimulationResults"),
   ("simulate", "py_simulate"),
   ("get_player_types", "get_player_types")]

/-- The native symbols the shim references. -/
def requiredNativeSymbols : List String := importPairs.map Prod.snd

/-- The `__all__` list of the shim, in source order. -/
def dunderAll : List String :=
  ["EnergyType", "Attack", "Ability", "Card", "PlayedCard", "Deck",
   "Game", "State", "GameOutcome", "SimulationResults", "simulate",
   "get_player_types"]

/-- The package module produced by a successful import of the shim: the
alias bindings plus the public-surface list. -/
structure PackageModule where
  bindings : List (String × Nat)
  allNames : List String

/-- The import semantics of the shim: `from .deckgym import (X as Y, …)`
binds every alias to the identically-named native object and fails when
any referenced native symbol is missing; on success `__all__` is the
alias-name list.  (Python resolves the names one at a time; failure of any
one fails the whole import, which is what the all-present guard
captures.) -/
def importDeckgym (native : PyModule) : Option PackageModule :=
  if requiredNativeSymbols.all fun n => (native.lookup n).isSome then
    some { bindings := importPairs.map fun pr => (pr.1, (native.lookup pr.2).getD 0),
           allNames := dunderAll }
  else none

/-! ### Basic lemmas about state projections -/

theorem Player.other_other (p : Player) : p.other.other = p := by
  cases p <;> rfl

theorem Player.other_ne (p : Player) : p.other ≠ p := by
  cases p <;> simp [Player.other]

theorem player_setPlayer (s : State) (p q : Player) (ps : PlayerState) :
    (s.setPlayer p ps).player q = if q = p then ps else s.player q := by
  cases p <;> cases q <;> simp [State.setPlayer, State.player]

theorem player_setPlayer_same (s : State) (p : Player) (ps : PlayerState) :
    (s.setPlayer p ps).player p = ps := by
  cases p <;> rfl

theorem player_setPlayer_other (s : State) (p q : Player) (ps : PlayerState)
    (h : q ≠ p) : (s.setPlayer p ps).player q = s.player q := by
  cases p <;> cases q <;> first | rfl | exact absurd rfl h

theorem setPlayer_current (s : State) (p : Player) (ps : PlayerState) :
    (s.setPlayer p ps).current = s.current := by
  cases p <;> rfl

theorem setPlayer_outcome (s : State) (p : Player) (ps : PlayerState) :
    (s.setPlayer p ps).outcome = s.outcome := by
  cases p <;> rfl

theorem setPlayer_modifiers (s : State) (p : Player) (ps : PlayerState) :
    (s.setPlayer p ps).modifiers = s.modifiers := by
  cases p <;> rfl

theorem checkWin_player (s : State) (q : Player) :
    (checkWin s).player q = s.player q := by
  unfold checkWin
  split
  · rfl
  · cases winCond s .a <;> cases winCond s .b <;> cases q <;>
      simp [State.player]

theorem checkWin_current (s : State) : (checkWin s).current = s.current := by
  unfold checkWin
  split
  · rfl
  · cases winCond s .a <;> cases winCond s .b <;> rfl

theorem checkWin_modifiers (s : State) :
    (checkWin s).modifiers = s.modifiers := by
  unfold checkWin
  split
  · rfl
  · cases winCond s .a <;> cases winCond s .b <;> rfl

theorem registerEffect_player (s : State) (m : Option Modifier) (q : Player) :
    (registerEffect s m).player q = s.player q := by
  cases m <;> cases q <;> rfl

theorem registerEffect_current (s : State) (m : Option Modifier) :
    (registerEffect s m).current = s.current := by
  cases m <;> rfl

theorem registerEffect_outcome (s : State) (m : Option Modifier) :
    (registerEffect s m).outcome = s.outcome := by
  cases m <;> rfl

/-! ### Concrete fixtures used by witnesses -/

def tackle : Attack :=
  { name := "Tackle", cost := [.colorless], baseDamage := 20, effect := none }

def surge : Attack :=
  { name := "Surge", cost := [.lightning, .lightning], baseDamage := 40,
    effect := none }

def sparky : Card :=
  { id := 1, name := "Sparky", category := .pokemon, hp := 50,
    energyType := .lightning, retreatCost := 1, attacks := [tackle, surge],
    ability := none, effect := none }

def sampleDeck : Deck := ⟨List.replicate 20 sparky⟩

def emptyPS : PlayerState :=
  { deck := [], hand := [], discard := [], active := none, bench := [],
    points := 0, energyAllowance := 1 }

def terminalSample : State :=
  { pa := emptyPS, pb := emptyPS, turn := 3, current := .a,
    phase := .terminal, outcome := some (.win .a), modifiers := [] }

def liveSample : State :=
  { pa := emptyPS, pb := emptyPS, turn := 1, current := .a,
    phase := .actionPhase, outcome := none, modifiers := [] }

/-! ### C2: terminal states reject every Resolver call -/

/-- C2: for every State that has reached a terminal outcome (Win, Loss,
or Tie), every subsequent Resolver call on that State fails with
TerminatedGameError and leaves the State unchanged. -/
theorem terminal_state_rejects_all_actions (s : State) (a : Action)
    (h : s.outcome = some GameOutcome.tie ∨
         (∃ p, s.outcome = some (GameOutcome.win p)) ∨
         (∃ p, s.outcome = some (GameOutcome.loss p))) :
    applyActionKeep s a = (s, some ResolverError.terminatedGameError) := by
  have hs : s.outcome.isSome := by
    rcases h with h | ⟨p, h⟩ | ⟨p, h⟩ <;> simp [h]
  simp [applyActionKeep, applyAction, hs]

/-- Witness for C2 at a concrete terminated state. -/
theorem terminal_state_rejects_all_actions_witness :
    applyActionKeep terminalSample .endTurn =
      (terminalSample, some ResolverError.terminatedGameError) :=
  terminal_state_rejects_all_actions terminalSample .endTurn
    (Or.inr (Or.inl ⟨.a, rfl⟩))

/-! ### C3: illegal actions fail atomically -/

theorem mem_allEnergyTypes (e : EnergyType) : e ∈ allEnergyTypes := by
  cases e <;> simp [allEnergyTypes]

theorem targets_mem_of_slot (ps : PlayerState) (t : Target)
    (h : (ps.getSlot t).isSome = true) : t ∈ ps.targets := by
  cases t with
  | active => simp [PlayerState.targets]
  | bench i =>
    simp only [PlayerState.getSlot] at h
    have hi : i < ps.bench.length := by
      cases hg : ps.bench.get? i with
      | none => rw [hg] at h; simp at h
      | some pc => exact (List.get?_eq_some.mp hg).1
    simp only [PlayerState.targets, List.mem_cons, List.mem_map]
    exact Or.inr ⟨i, List.mem_range.mpr hi, rfl⟩

/-- Completeness of the candidate enumeration: every action the Resolver
accepts occurs among the candidates. -/
theorem isLegal_mem_candidates (s : State) (a : Action)
    (h : isLegal s a = true) : a ∈ candidateActions s := by
  unfold candidateActions
  cases a with
  | attachEnergy e t =>
    simp only [isLegal, Bool.and_eq_true] at h
    obtain ⟨-, -, hb⟩ := h
    refine List.mem_append_left _ (List.mem_append_left _
      (List.mem_append_left _ (List.mem_append_left _
        (List.mem_append_left _ ?_))))
    simp only [List.mem_flatMap, List.mem_map]
    exact ⟨e, mem_allEnergyTypes e, t, targets_mem_of_slot _ t hb, rfl⟩
  | playCard i toBench =>
    simp only [isLegal, Bool.and_eq_true] at h
    obtain ⟨-, hb⟩ := h
    refine List.mem_append_left _ (List.mem_append_left _
      (List.mem_append_left _ (List.mem_append_left _
        (List.mem_append_right _ ?_))))
    cases hg : (s.player s.current).hand.get? i with
    | none => rw [hg] at hb; simp at hb
    | some c =>
      have hi : i < (s.player s.current).hand.length :=
        (List.get?_eq_some.mp hg).1
      simp only [List.mem_flatMap, List.mem_range]
      exact ⟨i, hi, by cases toBench <;> simp⟩
  | attack i =>
    simp only [isLegal, Bool.and_eq_true] at h
    obtain ⟨-, hb⟩ := h
    refine List.mem_append_left _ (List.mem_append_left _
      (List.mem_append_left _ (List.mem_append_right _ ?_)))
    cases ha : (s.player s.current).active with
    | none => rw [ha] at hb; simp at hb
    | some pc =>
      rw [ha] at hb
      simp only at hb
      cases hg : pc.card.attacks.get? i with
      | none => rw [hg] at hb; simp at hb
      | some atk =>
        have hi : i < pc.card.attacks.length := (List.get?_eq_some.mp hg).1
        simp only [List.mem_map, List.mem_range]
        exact ⟨i, hi, rfl⟩
  | useAbility t =>
    simp only [isLegal, Bool.and_eq_true] at h
    obtain ⟨-, hb⟩ := h
    refine List.mem_append_left _ (List.mem_append_left _
      (List.mem_append_right _ ?_))
    cases hg : (s.player s.current).getSlot t with
    | none => rw [hg] at hb; simp at hb
    | some pc =>
      simp only [List.mem_map]
      exact ⟨t, targets_mem_of_slot _ t (by rw [hg]; rfl), rfl⟩
  | retreat i =>
    simp only [isLegal, Bool.and_eq_true] at h
    obtain ⟨-, hb⟩ := h
    refine List.mem_append_left _ (List.mem_append_right _ ?_)
    cases ha : (s.player s.current).active with
    | none => rw [ha] at hb; simp at hb
    | some pc =>
      rw [ha] at hb
      cases hg : (s.player s.current).bench.get? i with
      | none => rw [hg] at hb; simp at hb
      | some nb =>
        have hi : i < (s.player s.current).bench.length :=
          (List.get?_eq_some.mp hg).1
        simp only [List.mem_map, List.mem_range]
        exact ⟨i, hi, rfl⟩
  | endTurn =>
    exact List.mem_append_right _ (List.mem_singleton.mpr rfl)

/-- Membership in the resolver-computed legal-action set coincides with
the Resolver's legality check. -/
theorem mem_legalActions_iff (s : State) (a : Action) :
    a ∈ legalActions s ↔ isLegal s a = true := by
  constructor
  · intro h
    exact (List.mem_filter.mp h).2
  · intro h
    exact List.mem_filter.mpr ⟨isLegal_mem_candidates s a h, h⟩

/-- C3: for every non-terminal State and every proposed action outside
the resolver-computed legal-action set, the Resolver fails with
IllegalActionError and the State after the failed call is exactly the
State before it. -/
theorem illegal_action_fails_atomically (s : State) (a : Action)
    (hterm : s.outcome = none) (h : a ∉ legalActions s) :
    applyActionKeep s a = (s, some ResolverError.illegalActionError) := by
  have hl : isLegal s a = false := by
    cases hil : isLegal s a
    · rfl
    · exact absurd ((mem_legalActions_iff s a).mpr hil) h
  simp [applyActionKeep, applyAction, hterm, hl]

/-- Witness for C3 at a concrete live state and an illegal attack. -/
theorem illegal_action_fails_atomically_witness :
    applyActionKeep liveSample (.attack 0) =
      (liveSample, some ResolverError.illegalActionError) :=
  illegal_action_fails_atomically liveSample (.attack 0) rfl (by decide)

/-! ### C10: the binding shim's import surface -/

theorem some_getD_of_isSome (o : Option α) (d : α) (h : o.isSome = true) :
    some (o.getD d) = o := by
  cases o
  · simp at h
  · rfl

/-- C10: importing the deckgym package succeeds exactly when the native
submodule provides all twelve referenced symbols, and on success the
package's `__all__` lists exactly the twelve alias names, each bound to
the identical native object it renames (e.g., `simulate` is the native
`py_simulate`). -/
theorem import_shim_faithful (native : PyModule) :
    ((importDeckgym native).isSome = true ↔
      ∀ n ∈ requiredNativeSymbols, (native.lookup n).isSome = true) ∧
    (∀ pkg, importDeckgym native = some pkg →
      pkg.allNames =
        ["EnergyType", "Attack", "Ability", "Card", "PlayedCard", "Deck",
         "Game", "State", "GameOutcome", "SimulationResults", "simulate",
         "get_player_types"] ∧
      ∀ pr ∈ importPairs,
        pkg.bindings.lookup pr.1 = native.lookup pr.2) := by
  constructor
  · unfold importDeckgym
    split
    case isTrue hall =>
      simp only [Option.isSome_some, true_iff]
      exact fun n hn => List.all_eq_true.mp hall n hn
    case isFalse hall =>
      simp only [Option.isSome_none, Bool.false_eq_true, false_iff]
      intro hcontra
      exact hall (List.all_eq_true.mpr fun n hn => hcontra n hn)
  · intro pkg hpkg
    unfold importDeckgym at hpkg
    split at hpkg
    case isFalse => exact absurd hpkg (by simp)
    case isTrue hall =>
      have hall2 : ∀ n ∈ requiredNativeSymbols, (native.lookup n).isSome = true :=
        fun n hn => List.all_eq_true.mp hall n hn
      obtain rfl := Option.some_inj.mp hpkg
      refine ⟨rfl, ?_⟩
      intro pr hpr
      simp only [importPairs, List.mem_cons, List.not_mem_nil, or_false] at hpr
      rcases hpr with rfl | rfl | rfl | rfl | rfl | rfl | rfl | rfl | rfl | rfl | rfl | rfl <;>
        · simp only [importPairs, List.map_cons, List.map_nil]
          simp [List.lookup]
          exact some_getD_of_isSome _ _
            (hall2 _ (by simp [requiredNativeSymbols, importPairs]))

/-- A concrete native module exposing all twelve symbols, for the
witness. -/
def sampleNative : PyModule :=
  ⟨[("PyEnergyType", 1), ("PyAttack", 2), ("PyAbility", 3), ("PyCard", 4),
    ("PyPlayedCard", 5), ("PyDeck", 6), ("PyGame", 7), ("PyState", 8),
    ("PyGameOutcome", 9), ("PySimulationResults", 10), ("py_simulate", 11),
    ("get_player_types", 12)]⟩

def samplePkg : PackageModule :=
  { bindings :=
      [("EnergyType", 1), ("Attack", 2), ("Ability", 3), ("Card", 4),
       ("PlayedCard", 5), ("Deck", 6), ("Game", 7), ("State", 8),
       ("GameOutcome", 9), ("SimulationResults", 10), ("simulate", 11),
       ("get_player_types", 12)],
    allNames := dunderAll }

/-- Witness for C10 at a concrete native module. -/
theorem import_shim_faithful_witness :
    samplePkg.allNames =
      ["EnergyType", "Attack", "Ability", "Card", "PlayedCard", "Deck",
       "Game", "State", "GameOutcome", "SimulationResults", "simulate",
       "get_player_types"] ∧
    samplePkg.bindings.lookup "simulate" = sampleNative.lookup "py_simulate" :=
  ⟨((import_shim_faithful sampleNative).2 samplePkg rfl).1,
   ((import_shim_faithful sampleNative).2 samplePkg rfl).2
     ("simulate", "py_simulate") (by simp [importPairs])⟩

/-! ### Simulation-driver lemmas: chunking and aggregation -/

theorem chunksOf_join (k : Nat) : ∀ (l : List α), (chunksOf k l).flatten = l
  | [] => by simp [chunksOf]
  | x :: xs => by
    rw [chunksOf]
    simp only [List.flatten_cons]
    rw [chunksOf_join k (xs.drop (k - 1))]
    simp [List.take_append_drop]
termination_by l => l.length
decreasing_by
  simp only [List.length_cons]
  exact Nat.lt_succ_of_le (xs.length_drop _ ▸ Nat.sub_le _ _)

theorem merge_empty (r : SimulationResults) :
    r.merge SimulationResults.empty = r := by
  simp [SimulationResults.merge, SimulationResults.empty]

theorem merge_assoc (r q t : SimulationResults) :
    (r.merge q).merge t = r.merge (q.merge t) := by
  simp [SimulationResults.merge, Nat.add_assoc]

theorem record_merge (r q : SimulationResults) (o : GameOutcome) :
    (r.merge q).record o = r.merge (q.record o) := by
  cases o with
  | win p => cases p <;> simp [SimulationResults.record, SimulationResults.merge, Nat.add_assoc]
  | loss p => cases p <;> simp [SimulationResults.record, SimulationResults.merge, Nat.add_assoc]
  | tie => simp [SimulationResults.record, SimulationResults.merge, Nat.add_assoc]
  | aborted reason => simp [SimulationResults.record, SimulationResults.merge, Nat.add_assoc]

theorem record_eq_merge (r : SimulationResults) (o : GameOutcome) :
    r.record o = r.merge (SimulationResults.empty.record o) := by
  have := record_merge r SimulationResults.empty o
  rw [merge_empty] at this
  exact this

theorem runBatchFrom_eq_merge (da db : Deck) (sa sb : String) (seed : Nat) :
    ∀ (idxs : List Nat) (acc : SimulationResults),
    runBatchFrom da db sa sb seed acc idxs =
      acc.merge (runBatch da db sa sb seed idxs) := by
  intro idxs
  induction idxs with
  | nil => intro acc; simp [runBatchFrom, runBatch, merge_empty]
  | cons i is ih =>
    intro acc
    simp only [runBatchFrom, runBatch, List.foldl_cons] at *
    rw [ih, ih (SimulationResults.empty.record _)]
    rw [record_eq_merge acc, merge_assoc]

theorem runBatchFrom_append (da db : Deck) (sa sb : String) (seed : Nat)
    (acc : SimulationResults) (l1 l2 : List Nat) :
    runBatchFrom da db sa sb seed acc (l1 ++ l2) =
      runBatchFrom da db sa sb seed (runBatchFrom da db sa sb seed acc l1) l2 := by
  simp [runBatchFrom, List.foldl_append]

theorem foldl_merge_map_chunks (da db : Deck) (sa sb : String) (seed : Nat) :
    ∀ (cs : List (List Nat)) (acc : SimulationResults),
    ((cs.map (runBatch da db sa sb seed)).foldl SimulationResults.merge acc) =
      runBatchFrom da db sa sb seed acc cs.flatten := by
  intro cs
  induction cs with
  | nil => intro acc; simp [runBatchFrom]
  | cons c cs ih =>
    intro acc
    simp only [List.map_cons, List.foldl_cons, List.flatten_cons]
    rw [ih, runBatchFrom_append]
    rw [runBatchFrom_eq_merge da db sa sb seed c acc]

/-- The driver's parallel aggregation collapses to the sequential batch
over all game indices, for any chunk size. -/
theorem py_simulate_eq (da db : Deck) (sa sb : String) (n : Int)
    (seed : Nat) (par : Nat) (hpar : par ≠ 0) :
    py_simulate da db sa sb n seed par =
      if n ≤ 0 ∨ sa ∉ get_player_types ∨ sb ∉ get_player_types then
        .error .configurationError
      else .ok (runBatch da db sa sb seed (List.range n.toNat)) := by
  unfold py_simulate
  by_cases hc : n ≤ 0 ∨ sa ∉ get_player_types ∨ sb ∉ get_player_types
  · rw [if_pos (by tauto), if_pos hc]
  · rw [if_neg (by tauto), if_neg hc]
    simp only []
    rw [foldl_merge_map_chunks, chunksOf_join]
    rfl

/-- C1: running simulate with identical decks, strategies, game count and
seed but parallelism 1 versus parallelism 4 yields identical
SimulationResults: every game's RNG seed is derived purely from the base
seed and the game index, so the aggregate is chunking-independent. -/
theorem simulate_parallelism_independent (da db : Deck) (sa sb : String)
    (numGames : Int) (seed : Nat) :
    py_simulate da db sa sb numGames seed 1 =
      py_simulate da db sa sb numGames seed 4 := by
  rw [py_simulate_eq da db sa sb numGames seed 1 (by decide),
    py_simulate_eq da db sa sb numGames seed 4 (by decide)]

/-! ### C7: fail-fast configuration errors, per-game abort isolation -/

def GameOutcome.isAborted : GameOutcome → Bool
  | .aborted _ => true
  | _ => false

theorem record_total (r : SimulationResults) (o : GameOutcome) :
    (r.record o).total = r.total + 1 := by
  cases o with
  | win p => cases p <;> simp [SimulationResults.record, SimulationResults.total] <;> omega
  | loss p => cases p <;> simp [SimulationResults.record, SimulationResults.total] <;> omega
  | tie => simp [SimulationResults.record, SimulationResults.total]; omega
  | aborted reason => simp [SimulationResults.record, SimulationResults.total]; omega

theorem record_abortedCount (r : SimulationResults) (o : GameOutcome) :
    (r.record o).abortedCount =
      r.abortedCount + (if o.isAborted then 1 else 0) := by
  cases o with
  | win p => cases p <;> simp [SimulationResults.record, GameOutcome.isAborted]
  | loss p => cases p <;> simp [SimulationResults.record, GameOutcome.isAborted]
  | tie => simp [SimulationResults.record, GameOutcome.isAborted]
  | aborted reason => simp [SimulationResults.record, GameOutcome.isAborted]

theorem runBatchFrom_total (da db : Deck) (sa sb : String) (seed : Nat) :
    ∀ (idxs : List Nat) (acc : SimulationResults),
    (runBatchFrom da db sa sb seed acc idxs).total = acc.total + idxs.length := by
  intro idxs
  induction idxs with
  | nil => intro acc; simp [runBatchFrom]
  | cons i is ih =>
    intro acc
    simp only [runBatchFrom, List.foldl_cons, List.length_cons] at *
    rw [ih, record_total]
    omega

theorem runBatchFrom_abortedCount (da db : Deck) (sa sb : String) (seed : Nat) :
    ∀ (idxs : List Nat) (acc : SimulationResults),
    (runBatchFrom da db sa sb seed acc idxs).abortedCount =
      acc.abortedCount +
        (idxs.map fun i => runGame da db sa sb (perGameSeed seed i)).countP
          GameOutcome.isAborted := by
  intro idxs
  induction idxs with
  | nil => intro acc; simp [runBatchFrom]
  | cons i is ih =>
    intro acc
    simp only [runBatchFrom, List.foldl_cons, List.map_cons] at *
    rw [ih, record_abortedCount, List.countP_cons]
    cases h : (runGame da db sa sb (perGameSeed seed i)).isAborted <;> simp [h] <;> omega

/-- C7: simulate fails with ConfigurationError, before simulating any
game, whenever num_games ≤ 0 or a requested strategy id is not among the
identifiers enumerated by get_player_types; conversely with a valid
configuration it returns the aggregate over every game index: the total
of recorded outcomes is num_games and the aborted count is exactly the
number of individual games whose outcome is Aborted, so one game's abort
never aborts the batch. -/
theorem simulate_config_error_and_abort_isolation (da db : Deck)
    (sa sb : String) (n : Int) (seed : Nat) (par : Nat) :
    ((n ≤ 0 ∨ sa ∉ get_player_types ∨ sb ∉ get_player_types) →
      py_simulate da db sa sb n seed par = .error .configurationError) ∧
    (0 < n → sa ∈ get_player_types → sb ∈ get_player_types → par ≠ 0 →
      py_simulate da db sa sb n seed par =
        .ok (runBatch da db sa sb seed (List.range n.toNat)) ∧
      (runBatch da db sa sb seed (List.range n.toNat)).total = n.toNat ∧
      (runBatch da db sa sb seed (List.range n.toNat)).abortedCount =
        ((List.range n.toNat).map fun i =>
          runGame da db sa sb (perGameSeed seed i)).countP
            GameOutcome.isAborted) := by
  constructor
  · intro h
    unfold py_simulate
    rw [if_pos (by tauto)]
  · intro hn hsa hsb hpar
    have hcond : ¬(n ≤ 0 ∨ sa ∉ get_player_types ∨ sb ∉ get_player_types) := by
      push_neg
      exact ⟨by omega, hsa, hsb⟩
    refine ⟨?_, ?_, ?_⟩
    · rw [py_simulate_eq da db sa sb n seed par hpar, if_neg hcond]
    · rw [runBatch, runBatchFrom_total]
      simp [SimulationResults.empty, SimulationResults.total]
    · rw [runBatch, runBatchFrom_abortedCount]
      simp [SimulationResults.empty]

/-- Witness for C7: a bad configuration is rejected and a good one runs
every game. -/
theorem simulate_config_error_and_abort_isolation_witness :
    py_simulate sampleDeck sampleDeck "random" "bogus" 3 7 1 =
      .error .configurationError ∧
    py_simulate sampleDeck sampleDeck "random" "heuristic" 3 7 1 =
      .ok (runBatch sampleDeck sampleDeck "random" "heuristic" 7
        (List.range (3 : Int).toNat)) :=
  ⟨(simulate_config_error_and_abort_isolation sampleDeck sampleDeck
      "random" "bogus" 3 7 1).1 (by right; right; decide),
   ((simulate_config_error_and_abort_isolation sampleDeck sampleDeck
      "random" "heuristic" 3 7 1).2 (by decide) (by decide) (by decide)
        (by decide)).1⟩

/-! ### C9: strategies never see concealed information -/

/-- C9: the view handed to a player's strategy reveals the opponent's
concealed zones only as counts: two States that differ only in the
contents of zones concealed from that player produce identical strategy
views, hence identical action choices for any strategy function and any
strategy randomness. -/
theorem strategy_view_conceals_hidden_zones (p : Player) (s1 s2 : State)
    (h : ConcealedEquiv p s1 s2) :
    viewFor p s1 = viewFor p s2 ∧
    ∀ (strat : StrategyView → Nat → Option Action) (r : Nat),
      strat (viewFor p s1) r = strat (viewFor p s2) r := by
  obtain ⟨hown, hhand, hdeck, hdis, hact, hben, hpts, hturn, hcur, hph, hmod⟩ := h
  have hv : viewFor p s1 = viewFor p s2 := by
    unfold viewFor ownViewOf oppViewOf
    rw [hown, hhand, hdeck, hdis, hact, hben, hpts, hturn, hcur, hph, hmod]
  exact ⟨hv, fun strat r => by rw [hv]⟩

def sparky2 : Card := { sparky with id := 2 }

/-- Two states identical except for the contents of player B's concealed
hand. -/
def viewSample1 : State :=
  { liveSample with pb := { emptyPS with hand := [sparky] } }

def viewSample2 : State :=
  { liveSample with pb := { emptyPS with hand := [sparky2] } }

/-- Witness for C9 at two concrete states differing only in the
opponent's hand contents. -/
theorem strategy_view_conceals_hidden_zones_witness :
    viewFor .a viewSample1 = viewFor .a viewSample2 :=
  (strategy_view_conceals_hidden_zones .a viewSample1 viewSample2
    ⟨rfl, rfl, rfl, rfl, rfl, rfl, rfl, rfl, rfl, rfl, rfl⟩).1

/-! ### Attack-pipeline lemmas shared by C5, C6 and C8 -/

theorem clearTurnFlags_card (pc : PlayedCard) :
    (pc.clearTurnFlags).card = pc.card := rfl

theorem clearTurnFlags_damageTaken (pc : PlayedCard) :
    (pc.clearTurnFlags).damageTaken = pc.damageTaken := rfl

theorem option_map_clear (f : PlayedCard → α)
    (hf : ∀ pc, f pc.clearTurnFlags = f pc) (o : Option PlayedCard) :
    (o.map PlayedCard.clearTurnFlags).map f = o.map f := by
  cases o with
  | none => rfl
  | some pc => simp [hf]

theorem list_map_clear (f : PlayedCard → α)
    (hf : ∀ pc, f pc.clearTurnFlags = f pc) (l : List PlayedCard) :
    (l.map PlayedCard.clearTurnFlags).map f = l.map f := by
  rw [List.map_map]
  exact List.map_congr_left fun pc _ => hf pc

/-- The attacker's legality check for a declared attack, under the
standing hypotheses about the position. -/
theorem isLegal_attack (s : State) (i : Nat) (pc : PlayedCard) (atk : Attack)
    (hphase : s.phase = .actionPhase)
    (hact : (s.player s.current).active = some pc)
    (hatk : pc.card.attacks.get? i = some atk)
    (hdef : ((s.player s.current.other).active).isSome = true) :
    isLegal s (.attack i) = coversCost pc.attached atk.cost := by
  simp only [isLegal, hphase, hact, hatk, hdef]
  simp [Bool.and_true]

/-- `applyPoison` never touches the zones of the player whose turn it is
not, nor the acting player's points; it also keeps the acting player. -/
theorem applyPoison_proj (s : State) :
    ((applyPoison s).player s.current.other).discard =
      (s.player s.current.other).discard ∧
    ((applyPoison s).player s.current.other).active =
      (s.player s.current.other).active ∧
    ((applyPoison s).player s.current.other).bench =
      (s.player s.current.other).bench ∧
    ((applyPoison s).player s.current).points =
      (s.player s.current).points ∧
    (applyPoison s).current = s.current := by
  have hne : s.current.other ≠ s.current := Player.other_ne s.current
  have hne2 : s.current ≠ s.current.other := hne.symm
  unfold applyPoison
  cases hact : (s.player s.current).active with
  | none => simp [hact]
  | some pc =>
    simp only [hact]
    by_cases hp : pc.status.contains .poisoned
    · simp only [hp, if_true]
      by_cases hko : pc.remainingHp ≤ poisonDamage
      · simp only [hko, if_true]
        refine ⟨?_, ?_, ?_, ?_, ?_⟩ <;>
          simp [checkWin_player, checkWin_current, player_setPlayer_same,
            player_setPlayer_other, setPlayer_current, hne, hne2,
            PlayerState.knockOutActive]
      · simp only [hko, if_false]
        refine ⟨?_, ?_, ?_, ?_, ?_⟩ <;>
          simp [player_setPlayer_same, player_setPlayer_other,
            setPlayer_current, hne, hne2]
    · have hp2 : Status.poisoned ∉ pc.status := by simpa using hp
      simp [hp2]

/-- `processTurnEnd` preserves, for the player who did not act: the
discard pile, and any flag-insensitive projection of the active slot and
bench; and it preserves the acting player's points. -/
theorem processTurnEnd_proj (s : State) (f : PlayedCard → α)
    (hf : ∀ pc, f pc.clearTurnFlags = f pc) :
    ((processTurnEnd s).player s.current.other).discard =
      (s.player s.current.other).discard ∧
    ((processTurnEnd s).player s.current.other).active.map f =
      (s.player s.current.other).active.map f ∧
    ((processTurnEnd s).player s.current.other).bench.map f =
      (s.player s.current.other).bench.map f ∧
    ((processTurnEnd s).player s.current).points =
      (s.player s.current).points := by
  obtain ⟨hdis, hact, hben, hpts, hcur⟩ := applyPoison_proj s
  unfold processTurnEnd
  simp only [hcur]
  by_cases ho : (applyPoison s).outcome.isSome
  · rw [if_pos ho]
    exact ⟨hdis, congrArg (Option.map f) hact, congrArg (List.map f) hben, hpts⟩
  · rw [if_neg ho]
    cases hq : s.current with
    | a =>
      rw [hq] at hdis hact hben hpts
      cases hdk : ((applyPoison s).player Player.a.other).deck with
      | nil =>
        exact ⟨hdis, congrArg (Option.map f) hact,
          congrArg (List.map f) hben, hpts⟩
      | cons c rest =>
        exact ⟨hdis, (option_map_clear f hf _).trans (congrArg (Option.map f) hact),
          (list_map_clear f hf _).trans (congrArg (List.map f) hben), hpts⟩
    | b =>
      rw [hq] at hdis hact hben hpts
      cases hdk : ((applyPoison s).player Player.b.other).deck with
      | nil =>
        exact ⟨hdis, congrArg (Option.map f) hact,
          congrArg (List.map f) hben, hpts⟩
      | cons c rest =>
        exact ⟨hdis, (option_map_clear f hf _).trans (congrArg (Option.map f) hact),
          (list_map_clear f hf _).trans (congrArg (List.map f) hben), hpts⟩

/-- Field-level description of `resolveAttack` in the knockout case. -/
theorem resolveAttack_ko (s : State) (i : Nat) (pc defPc : PlayedCard)
    (atk : Attack)
    (hact : (s.player s.current).active = some pc)
    (hatk : pc.card.attacks.get? i = some atk)
    (hdef : (s.player s.current.other).active = some defPc)
    (hko : defPc.remainingHp ≤ computeDamage atk.baseDamage s.modifiers) :
    (resolveAttack s i).player s.current.other =
      (s.player s.current.other).knockOutActive defPc ∧
    (resolveAttack s i).player s.current =
      { s.player s.current with
        points := (s.player s.current).points + knockoutValue } ∧
    (resolveAttack s i).current = s.current := by
  have hne2 : s.current ≠ s.current.other := (Player.other_ne s.current).symm
  unfold resolveAttack
  simp only [hact, hatk, hdef, hko, if_true]
  refine ⟨?_, ?_, ?_⟩ <;>
    simp [registerEffect_player, registerEffect_current, player_setPlayer_same,
      player_setPlayer_other, setPlayer_current, hne2]

/-- Field-level description of `resolveAttack` when the defender
survives. -/
theorem resolveAttack_nko (s : State) (i : Nat) (pc defPc : PlayedCard)
    (atk : Attack)
    (hact : (s.player s.current).active = some pc)
    (hatk : pc.card.attacks.get? i = some atk)
    (hdef : (s.player s.current.other).active = some defPc)
    (hnko : ¬ defPc.remainingHp ≤ computeDamage atk.baseDamage s.modifiers) :
    (resolveAttack s i).player s.current.other =
      { s.player s.current.other with
        active := some { defPc with
          damageTaken :=
            defPc.damageTaken + computeDamage atk.baseDamage s.modifiers } } ∧
    (resolveAttack s i).player s.current = s.player s.current ∧
    (resolveAttack s i).current = s.current := by
  have hne2 : s.current ≠ s.current.other := (Player.other_ne s.current).symm
  unfold resolveAttack
  simp only [hact, hatk, hdef, hnko, if_false]
  refine ⟨?_, ?_, ?_⟩ <;>
    simp [registerEffect_player, registerEffect_current, player_setPlayer_same,
      player_setPlayer_other, setPlayer_current, hne2]

/-! ### C5: attacks resolve exactly when the energy cost is covered -/

/-- C5: in a live action phase with an attacker, a declared attack with a
valid attack index and a present defender resolves if and only if the
attached energies cover the Attack's cost (type-for-type, Colorless
fillable by any); when the cost is not covered the Resolver fails with
IllegalActionError. -/
theorem attack_requires_energy_cost (s : State) (i : Nat) (pc : PlayedCard)
    (atk : Attack)
    (houtcome : s.outcome = none) (hphase : s.phase = .actionPhase)
    (hact : (s.player s.current).active = some pc)
    (hatk : pc.card.attacks.get? i = some atk)
    (hdef : ((s.player s.current.other).active).isSome = true) :
    ((applyAction s (.attack i) = .ok (resolve s (.attack i))) ↔
      coversCost pc.attached atk.cost = true) ∧
    (coversCost pc.attached atk.cost = false →
      applyAction s (.attack i) = .error .illegalActionError) := by
  have hl := isLegal_attack s i pc atk hphase hact hatk hdef
  cases hcv : coversCost pc.attached atk.cost with
  | true =>
    rw [hcv] at hl
    have hok : applyAction s (.attack i) = .ok (resolve s (.attack i)) := by
      unfold applyAction
      rw [houtcome]
      simp [hl]
    exact ⟨by simp [hok], fun h => by cases h⟩
  | false =>
    rw [hcv] at hl
    have herr : applyAction s (.attack i) = .error .illegalActionError := by
      unfold applyAction
      rw [houtcome]
      simp [hl]
    refine ⟨?_, fun _ => herr⟩
    constructor
    · intro h
      rw [herr] at h
      cases h
    · intro h
      cases h

/-- The attacking position used by witnesses: A has an active Sparky with
one Fire energy; B has an active Sparky that has already taken 40
damage. -/
def attackerPC : PlayedCard :=
  { card := sparky, damageTaken := 0, attached := [.fire], status := [],
    abilityUsed := false, justPlayed := false }

def defenderPC : PlayedCard :=
  { card := sparky, damageTaken := 40, attached := [], status := [],
    abilityUsed := false, justPlayed := false }

def attackerPS : PlayerState :=
  { deck := [sparky], hand := [], discard := [],
    active := some attackerPC,
    bench := [], points := 0, energyAllowance := 1 }

def defenderPS : PlayerState :=
  { deck := [sparky], hand := [], discard := [],
    active := some defenderPC,
    bench := [], points := 0, energyAllowance := 1 }

def koSample : State :=
  { pa := attackerPS, pb := defenderPS, turn := 2, current := .a,
    phase := .actionPhase, outcome := none, modifiers := [] }

/-- Witness for C5: attack 1 (Surge, cost two Lightning) is rejected with
one Fire energy attached; attack 0 (Tackle, cost one Colorless) resolves
with the same energy. -/
theorem attack_requires_energy_cost_witness :
    applyAction koSample (.attack 1) = .error .illegalActionError ∧
    applyAction koSample (.attack 0) = .ok (resolve koSample (.attack 0)) :=
  ⟨(attack_requires_energy_cost koSample 1 attackerPC surge rfl rfl rfl rfl
      (by decide)).2 (by decide),
   (attack_requires_energy_cost koSample 0 attackerPC tackle rfl rfl rfl rfl
      (by decide)).1.mpr (by decide)⟩

/-! ### C6: a knockout removes the defender and awards the prize once -/

/-- C6: when a resolved attack's computed damage is at least the
defender's remaining HP, the defending PlayedCard is removed from its
zone — its Card goes to the discard pile, the bench shifts up by one —
and the attacker's prize-point counter increases by the ruleset knockout
value exactly once. -/
theorem knockout_awards_prize_exactly_once (s : State) (i : Nat)
    (pc defPc : PlayedCard) (atk : Attack)
    (houtcome : s.outcome = none) (hphase : s.phase = .actionPhase)
    (hact : (s.player s.current).active = some pc)
    (hatk : pc.card.attacks.get? i = some atk)
    (hcov : coversCost pc.attached atk.cost = true)
    (hdef : (s.player s.current.other).active = some defPc)
    (hko : defPc.remainingHp ≤ computeDamage atk.baseDamage s.modifiers) :
    applyAction s (.attack i) = .ok (resolve s (.attack i)) ∧
    ((resolve s (.attack i)).player s.current.other).discard =
      defPc.card :: (s.player s.current.other).discard ∧
    ((resolve s (.attack i)).player s.current.other).active.map
        PlayedCard.card =
      ((s.player s.current.other).bench.head?).map PlayedCard.card ∧
    ((resolve s (.attack i)).player s.current.other).bench.map
        PlayedCard.card =
      (s.player s.current.other).bench.tail.map PlayedCard.card ∧
    ((resolve s (.attack i)).player s.current).points =
      (s.player s.current).points + knockoutValue := by
  have hlegal : isLegal s (.attack i) = true := by
    rw [isLegal_attack s i pc atk hphase hact hatk (by rw [hdef]; rfl)]
    exact hcov
  have happ : applyAction s (.attack i) = .ok (resolve s (.attack i)) := by
    unfold applyAction
    rw [houtcome]
    simp [hlegal]
  obtain ⟨hra_opp, hra_cur, hra_current⟩ :=
    resolveAttack_ko s i pc defPc atk hact hatk hdef hko
  have hres : resolve s (.attack i) =
      (if (checkWin (resolveAttack s i)).outcome.isSome then
        checkWin (resolveAttack s i)
      else processTurnEnd (checkWin (resolveAttack s i))) := rfl
  have h1opp : (checkWin (resolveAttack s i)).player s.current.other =
      (s.player s.current.other).knockOutActive defPc := by
    rw [checkWin_player, hra_opp]
  have h1cur : (checkWin (resolveAttack s i)).player s.current =
      { s.player s.current with
        points := (s.player s.current).points + knockoutValue } := by
    rw [checkWin_player, hra_cur]
  have h1current : (checkWin (resolveAttack s i)).current = s.current := by
    rw [checkWin_current, hra_current]
  refine ⟨happ, ?_⟩
  rw [hres]
  by_cases ho : (checkWin (resolveAttack s i)).outcome.isSome
  · rw [if_pos ho]
    refine ⟨?_, ?_, ?_, ?_⟩
    · rw [h1opp]; rfl
    · rw [h1opp]; rfl
    · rw [h1opp]; rfl
    · rw [h1cur]
  · rw [if_neg ho]
    obtain ⟨pdis, pact, pben, ppts⟩ :=
      processTurnEnd_proj (checkWin (resolveAttack s i)) PlayedCard.card
        clearTurnFlags_card
    rw [h1current] at pdis pact pben ppts
    refine ⟨?_, ?_, ?_, ?_⟩
    · rw [pdis, h1opp]; rfl
    · rw [pact, h1opp]; rfl
    · rw [pben, h1opp]; rfl
    · rw [ppts, h1cur]

/-- A knockout position with a benched defender-side Pokémon, so the
promotion is visible in the witness. -/
def benchedPC : PlayedCard :=
  { card := sparky2, damageTaken := 0, attached := [], status := [],
    abilityUsed := false, justPlayed := false }

def koBenchSample : State :=
  { pa := attackerPS,
    pb := { defenderPS with bench := [benchedPC] },
    turn := 2, current := .a, phase := .actionPhase, outcome := none,
    modifiers := [] }

/-- Witness for C6: Tackle for 20 knocks out the damaged defender (10 HP
remaining), its card goes to B's discard, the bench Pokémon is promoted,
and A gains exactly `knockoutValue` points. -/
theorem knockout_awards_prize_exactly_once_witness :
    applyAction koBenchSample (.attack 0) =
      .ok (resolve koBenchSample (.attack 0)) ∧
    ((resolve koBenchSample (.attack 0)).player Player.a.other).discard =
      defenderPC.card ::
        ((koBenchSample.player Player.a.other)).discard ∧
    ((resolve koBenchSample (.attack 0)).player Player.a.other).active.map
        PlayedCard.card =
      (((koBenchSample.player Player.a.other)).bench.head?).map
        PlayedCard.card ∧
    ((resolve koBenchSample (.attack 0)).player Player.a.other).bench.map
        PlayedCard.card =
      ((koBenchSample.player Player.a.other)).bench.tail.map
        PlayedCard.card ∧
    ((resolve koBenchSample (.attack 0)).player Player.a).points =
      ((koBenchSample.player Player.a)).points + knockoutValue :=
  knockout_awards_prize_exactly_once koBenchSample 0 attackerPC defenderPC
    tackle rfl rfl rfl rfl (by decide) rfl (by decide)

/-! ### C8: flat modifiers before multiplicative, in registration order -/

/-- The flat (additive) modifier amounts, in registration order. -/
def flatVals (ms : List Modifier) : List Nat :=
  ms.filterMap fun m => match m with | .flat n => some n | .mult _ => none

/-- The multiplicative modifier amounts, in registration order. -/
def multVals (ms : List Modifier) : List Nat :=
  ms.filterMap fun m => match m with | .mult n => some n | .flat _ => none

theorem foldl_filter_flat (ms : List Modifier) : ∀ (base : Nat),
    (ms.filter Modifier.isFlat).foldl Modifier.applyTo base =
      (flatVals ms).foldl (· + ·) base := by
  induction ms with
  | nil => intro base; simp [flatVals]
  | cons m ms ih =>
    intro base
    cases m with
    | flat n =>
      simp only [flatVals, List.filter_cons, List.filterMap_cons,
        Modifier.isFlat, if_true, List.foldl_cons] at *
      exact ih _
    | mult n =>
      simp only [flatVals, List.filter_cons, List.filterMap_cons,
        Modifier.isFlat, Bool.false_eq_true, if_false, List.foldl_cons] at *
      exact ih base

theorem foldl_filter_mult (ms : List Modifier) : ∀ (base : Nat),
    (ms.filter fun m => !m.isFlat).foldl Modifier.applyTo base =
      (multVals ms).foldl (· * ·) base := by
  induction ms with
  | nil => intro base; simp [multVals]
  | cons m ms ih =>
    intro base
    cases m with
    | flat n =>
      simp only [multVals, List.filter_cons, List.filterMap_cons,
        Modifier.isFlat, Bool.not_true, Bool.false_eq_true, if_false,
        List.foldl_cons] at *
      exact ih base
    | mult n =>
      simp only [multVals, List.filter_cons, List.filterMap_cons,
        Modifier.isFlat, Bool.not_false, if_true, List.foldl_cons] at *
      exact ih _

/-- The damage computation applies every flat modifier to the base damage
first, then every multiplicative modifier, each kind in registration
order. -/
theorem computeDamage_spec (base : Nat) (ms : List Modifier) :
    computeDamage base ms =
      (multVals ms).foldl (· * ·) ((flatVals ms).foldl (· + ·) base) := by
  unfold computeDamage
  rw [List.foldl_append, foldl_filter_flat, foldl_filter_mult]

/-- C8: for a resolved attack (shown here in the surviving-defender case,
where the applied damage is visible as the defender's damage counter),
the damage applied equals the Attack's base damage with every flat
modifier applied before every multiplicative modifier, and modifiers of
the same kind applied in the order their effects were registered. -/
theorem attack_damage_modifier_order (s : State) (i : Nat)
    (pc defPc : PlayedCard) (atk : Attack)
    (houtcome : s.outcome = none) (hphase : s.phase = .actionPhase)
    (hact : (s.player s.current).active = some pc)
    (hatk : pc.card.attacks.get? i = some atk)
    (hcov : coversCost pc.attached atk.cost = true)
    (hdef : (s.player s.current.other).active = some defPc)
    (hnko : ¬ defPc.remainingHp ≤ computeDamage atk.baseDamage s.modifiers) :
    applyAction s (.attack i) = .ok (resolve s (.attack i)) ∧
    ((resolve s (.attack i)).player s.current.other).active.map
        PlayedCard.damageTaken =
      some (defPc.damageTaken +
        (multVals s.modifiers).foldl (· * ·)
          ((flatVals s.modifiers).foldl (· + ·) atk.baseDamage)) := by
  have hlegal : isLegal s (.attack i) = true := by
    rw [isLegal_attack s i pc atk hphase hact hatk (by rw [hdef]; rfl)]
    exact hcov
  have happ : applyAction s (.attack i) = .ok (resolve s (.attack i)) := by
    unfold applyAction
    rw [houtcome]
    simp [hlegal]
  obtain ⟨hra_opp, hra_cur, hra_current⟩ :=
    resolveAttack_nko s i pc defPc atk hact hatk hdef hnko
  have hres : resolve s (.attack i) =
      (if (checkWin (resolveAttack s i)).outcome.isSome then
        checkWin (resolveAttack s i)
      else processTurnEnd (checkWin (resolveAttack s i))) := rfl
  have h1opp : (checkWin (resolveAttack s i)).player s.current.other =
      { s.player s.current.other with
        active := some { defPc with
          damageTaken :=
            defPc.damageTaken + computeDamage atk.baseDamage s.modifiers } } := by
    rw [checkWin_player, hra_opp]
  have h1current : (checkWin (resolveAttack s i)).current = s.current := by
    rw [checkWin_current, hra_current]
  refine ⟨happ, ?_⟩
  rw [hres]
  by_cases ho : (checkWin (resolveAttack s i)).outcome.isSome
  · rw [if_pos ho, h1opp]
    simp [computeDamage_spec]
  · rw [if_neg ho]
    obtain ⟨-, pact, -, -⟩ :=
      processTurnEnd_proj (checkWin (resolveAttack s i))
        PlayedCard.damageTaken clearTurnFlags_damageTaken
    rw [h1current] at pact
    rw [pact, h1opp]
    simp [computeDamage_spec]

/-- A surviving-defender position with registered modifiers: a flat +5
then a ×2, so Tackle deals (20 + 5) × 2 = 50 < 60 remaining HP. -/
def toughPC : PlayedCard :=
  { card := { sparky with hp := 60 }, damageTaken := 0, attached := [],
    status := [], abilityUsed := false, justPlayed := false }

def modSample : State :=
  { pa := attackerPS,
    pb := { defenderPS with active := some toughPC },
    turn := 2, current := .a, phase := .actionPhase, outcome := none,
    modifiers := [.flat 5, .mult 2] }

/-- Witness for C8: with modifiers `[flat 5, mult 2]` the defender's
damage counter becomes (20 + 5) × 2 = 50. -/
theorem attack_damage_modifier_order_witness :
    applyAction modSample (.attack 0) = .ok (resolve modSample (.attack 0)) ∧
    ((resolve modSample (.attack 0)).player Player.a.other).active.map
        PlayedCard.damageTaken =
      some (toughPC.damageTaken +
        (multVals modSample.modifiers).foldl (· * ·)
          ((flatVals modSample.modifiers).foldl (· + ·)
            tackle.baseDamage)) :=
  attack_damage_modifier_order modSample 0 attackerPC toughPC tackle
    rfl rfl rfl rfl (by decide) rfl (by decide)

/-! ### C4: card-multiset conservation, helper lemmas -/

theorem perm_cons_eraseIdx_get? {l : List α} {i : Nat} {c : α}
    (h : l.get? i = some c) : l.Perm (c :: l.eraseIdx i) := by
  induction l generalizing i with
  | nil => cases h
  | cons x xs ih =>
    cases i with
    | zero =>
      obtain rfl : x = c := by simpa using h
      simp [List.eraseIdx]
    | succ i =>
      have hx : xs.get? i = some c := by simpa using h
      simp only [List.eraseIdx]
      exact ((ih hx).cons x).trans (List.Perm.swap c x _)

theorem coe_eraseIdx_get? {l : List α} {i : Nat} {c : α}
    (h : l.get? i = some c) :
    (l : Multiset α) = c ::ₘ (l.eraseIdx i : Multiset α) := by
  rw [Multiset.cons_coe, Multiset.coe_eq_coe]
  exact perm_cons_eraseIdx_get? h

theorem headD_toList_append_tail (l : List α) :
    l.head?.toList ++ l.tail = l := by
  cases l <;> rfl

theorem map_modifyAt_card_preserving (g : PlayedCard → PlayedCard)
    (hg : ∀ pc, (g pc).card = pc.card) :
    ∀ (i : Nat) (l : List PlayedCard),
    (modifyAt g i l).map PlayedCard.card = l.map PlayedCard.card := by
  intro i
  induction i with
  | zero => intro l; cases l <;> simp [modifyAt, hg]
  | succ i ih =>
    intro l
    cases l with
    | nil => rfl
    | cons x xs => simp [modifyAt, ih]

theorem perm_cons_modifyAt_const {l : List α} {i : Nat} {b : α}
    (h : l.get? i = some b) (y : α) :
    (b :: modifyAt (fun _ => y) i l).Perm (y :: l) := by
  induction l generalizing i with
  | nil => cases h
  | cons x xs ih =>
    cases i with
    | zero =>
      obtain rfl : x = b := by simpa using h
      exact List.Perm.swap y x xs
    | succ i =>
      have hx : xs.get? i = some b := by simpa using h
      exact (List.Perm.swap x b _).trans
        (((ih hx).cons x).trans (List.Perm.swap y x xs))

/-- Changing the points or energy allowance of a player state does not
change its card multiset: restated for the slot-update form used by the
Resolver. -/
theorem cardMultiset_modifySlot (ps : PlayerState) (t : Target)
    (g : PlayedCard → PlayedCard) (hg : ∀ pc, (g pc).card = pc.card) :
    (ps.modifySlot t g).cardMultiset = ps.cardMultiset := by
  cases t with
  | active =>
    unfold PlayerState.modifySlot PlayerState.cardMultiset inPlayCards
    cases ps.active <;> simp [hg]
  | bench i =>
    unfold PlayerState.modifySlot PlayerState.cardMultiset inPlayCards
    simp [map_modifyAt_card_preserving g hg]

theorem cardMultiset_knockOutActive (ps : PlayerState) (pc : PlayedCard)
    (h : ps.active = some pc) :
    (ps.knockOutActive pc).cardMultiset = ps.cardMultiset := by
  unfold PlayerState.knockOutActive PlayerState.cardMultiset inPlayCards
  rw [h]
  simp only [headD_toList_append_tail, Option.toList_some,
    List.singleton_append, List.map_cons]
  rw [← Multiset.cons_coe, ← Multiset.cons_coe, ← Multiset.singleton_add,
    ← Multiset.singleton_add]
  abel

theorem cardMultiset_resetTurnFlags (ps : PlayerState) :
    (ps.resetTurnFlags).cardMultiset = ps.cardMultiset := by
  unfold PlayerState.resetTurnFlags PlayerState.cardMultiset inPlayCards
  cases ps.active <;>
    simp [list_map_clear PlayedCard.card clearTurnFlags_card,
      clearTurnFlags_card]

theorem cardMultiset_draw (ps : PlayerState) (c : Card) (rest : List Card)
    (h : ps.deck = c :: rest) :
    ({ ps with deck := rest, hand := c :: ps.hand } :
      PlayerState).cardMultiset = ps.cardMultiset := by
  unfold PlayerState.cardMultiset inPlayCards
  rw [h]
  simp only
  rw [← Multiset.cons_coe, ← Multiset.cons_coe, ← Multiset.singleton_add,
    ← Multiset.singleton_add]
  abel

theorem map_modifyAt_const (f : α → β) (y : α) : ∀ (i : Nat) (l : List α),
    (modifyAt (fun _ => y) i l).map f =
      modifyAt (fun _ => f y) i (l.map f) := by
  intro i
  induction i with
  | zero => intro l; cases l <;> rfl
  | succ i ih =>
    intro l
    cases l with
    | nil => rfl
    | cons x xs => simp [modifyAt, ih]

theorem cardMultiset_set_active (ps : PlayerState) (pc pc' : PlayedCard)
    (h : ps.active = some pc) (hcard : pc'.card = pc.card) :
    ({ ps with active := some pc' } : PlayerState).cardMultiset =
      ps.cardMultiset := by
  unfold PlayerState.cardMultiset inPlayCards
  rw [h]
  simp [hcard]

theorem cardMultiset_retreat (ps : PlayerState) (i : Nat)
    (pc nb pc1 : PlayedCard)
    (hact : ps.active = some pc) (hb : ps.bench.get? i = some nb)
    (hcard : pc1.card = pc.card) :
    ({ ps with
       active := some nb,
       bench := modifyAt (fun _ => pc1) i ps.bench } :
      PlayerState).cardMultiset = ps.cardMultiset := by
  unfold PlayerState.cardMultiset inPlayCards
  rw [hact]
  simp only [Option.toList_some, List.singleton_append, List.map_cons,
    map_modifyAt_const, hcard]
  congr 1
  rw [Multiset.coe_eq_coe]
  exact perm_cons_modifyAt_const (by rw [List.get?_map, hb]; rfl) pc.card

theorem cardMultiset_play_bench (ps : PlayerState) (i : Nat) (c : Card)
    (h : ps.hand.get? i = some c) :
    ({ ps with
       hand := ps.hand.eraseIdx i,
       bench := ps.bench ++ [PlayedCard.fresh c] } :
      PlayerState).cardMultiset = ps.cardMultiset := by
  unfold PlayerState.cardMultiset inPlayCards
  rw [coe_eraseIdx_get? h]
  simp only [List.map_append, List.append_assoc, ← Multiset.coe_add,
    List.map_cons, List.map_nil, PlayedCard.fresh, Multiset.coe_singleton,
    ← Multiset.singleton_add]
  abel

theorem cardMultiset_play_active (ps : PlayerState) (i : Nat) (c : Card)
    (h : ps.hand.get? i = some c) (ha : ps.active = none) :
    ({ ps with
       hand := ps.hand.eraseIdx i,
       active := some (PlayedCard.fresh c) } :
      PlayerState).cardMultiset = ps.cardMultiset := by
  unfold PlayerState.cardMultiset inPlayCards
  rw [coe_eraseIdx_get? h, ha]
  simp only [Option.toList_some, Option.toList_none, List.singleton_append,
    List.nil_append, List.map_cons, PlayedCard.fresh,
    ← Multiset.cons_coe, ← Multiset.singleton_add]
  abel

theorem cardMultiset_play_discard (ps : PlayerState) (i : Nat) (c : Card)
    (h : ps.hand.get? i = some c) :
    ({ ps with
       hand := ps.hand.eraseIdx i,
       discard := c :: ps.discard } : PlayerState).cardMultiset =
      ps.cardMultiset := by
  unfold PlayerState.cardMultiset inPlayCards
  rw [coe_eraseIdx_get? h]
  simp only [← Multiset.cons_coe, ← Multiset.singleton_add]
  abel

theorem Player.eq_other_of_ne {q p : Player} (h : q ≠ p) : q = p.other := by
  cases q <;> cases p <;> simp_all [Player.other]

theorem cardMultiset_applyPoison (s : State) (q : Player) :
    ((applyPoison s).player q).cardMultiset =
      ((s.player q)).cardMultiset := by
  have hne2 : s.current ≠ s.current.other := (Player.other_ne s.current).symm
  unfold applyPoison
  cases hact : (s.player s.current).active with
  | none => simp [hact]
  | some pc =>
    simp only [hact]
    by_cases hp : pc.status.contains .poisoned
    · simp only [hp, if_true]
      by_cases hko : pc.remainingHp ≤ poisonDamage
      · simp only [hko, if_true]
        rw [checkWin_player]
        by_cases hq : q = s.current
        · subst hq
          rw [player_setPlayer_other _ _ _ _ hne2, player_setPlayer_same]
          exact cardMultiset_knockOutActive _ pc hact
        · obtain rfl : q = s.current.other := Player.eq_other_of_ne hq
          rw [player_setPlayer_same]
          rfl
      · simp only [hko, if_false]
        by_cases hq : q = s.current
        · subst hq
          rw [player_setPlayer_same]
          exact cardMultiset_set_active _ pc _ hact rfl
        · rw [player_setPlayer_other _ _ _ _ hq]
    · have hp2 : Status.poisoned ∉ pc.status := by simpa using hp
      simp [hp2]

theorem cardMultiset_processTurnEnd (s : State) (q : Player) :
    ((processTurnEnd s).player q).cardMultiset =
      (s.player q).cardMultiset := by
  obtain ⟨-, -, -, -, hcur⟩ := applyPoison_proj s
  have hpois : ∀ r, ((applyPoison s).player r).cardMultiset =
      (s.player r).cardMultiset := cardMultiset_applyPoison s
  unfold processTurnEnd
  simp only [hcur]
  by_cases ho : (applyPoison s).outcome.isSome
  · rw [if_pos ho]
    exact hpois q
  · rw [if_neg ho]
    cases hq : s.current with
    | a =>
      cases hdk : ((applyPoison s).player Player.a.other).deck with
      | nil => exact hpois q
      | cons c rest =>
        cases q with
        | a => exact hpois Player.a
        | b =>
          exact ((cardMultiset_draw
              ((applyPoison s).player Player.a.other).resetTurnFlags c rest
              hdk).trans
            (cardMultiset_resetTurnFlags _)).trans (hpois Player.a.other)
    | b =>
      cases hdk : ((applyPoison s).player Player.b.other).deck with
      | nil => exact hpois q
      | cons c rest =>
        cases q with
        | b => exact hpois Player.b
        | a =>
          exact ((cardMultiset_draw
              ((applyPoison s).player Player.b.other).resetTurnFlags c rest
              hdk).trans
            (cardMultiset_resetTurnFlags _)).trans (hpois Player.b.other)

theorem cardMultiset_resolveAttack (s : State) (i : Nat) (q : Player) :
    ((resolveAttack s i).player q).cardMultiset =
      (s.player q).cardMultiset := by
  have hne2 : s.current ≠ s.current.other := (Player.other_ne s.current).symm
  unfold resolveAttack
  cases hact : (s.player s.current).active with
  | none => simp [hact]
  | some pc =>
    simp only [hact]
    cases hatk : pc.card.attacks.get? i with
    | none => simp [hatk]
    | some atk =>
      simp only [hatk]
      cases hdef : (s.player s.current.other).active with
      | none => simp [hdef]
      | some defPc =>
        simp only [hdef]
        rw [registerEffect_player]
        by_cases hko :
          defPc.remainingHp ≤ computeDamage atk.baseDamage s.modifiers
        · simp only [hko, if_true]
          by_cases hq : q = s.current
          · subst hq
            rw [player_setPlayer_other _ _ _ _ hne2, player_setPlayer_same]
            exact cardMultiset_set_active _ pc pc hact rfl
          · obtain rfl : q = s.current.other := Player.eq_other_of_ne hq
            rw [player_setPlayer_same]
            exact cardMultiset_knockOutActive _ defPc hdef
        · simp only [hko, if_false]
          by_cases hq : q = s.current.other
          · subst hq
            rw [player_setPlayer_same]
            exact cardMultiset_set_active _ defPc _ hdef rfl
          · rw [player_setPlayer_other _ _ _ _ hq]

/-- Conservation through one legal action body: the Resolver neither
manufactures nor destroys cards of either player. -/
theorem cardMultiset_resolve (s : State) (a : Action) (q : Player)
    (hleg : isLegal s a = true) :
    ((resolve s a).player q).cardMultiset = (s.player q).cardMultiset := by
  have hne2 : s.current ≠ s.current.other := (Player.other_ne s.current).symm
  cases a with
  | attachEnergy e t =>
    unfold resolve
    rw [checkWin_player]
    by_cases hq : q = s.current
    · subst hq
      rw [player_setPlayer_same]
      exact cardMultiset_modifySlot _ t _ fun pc => rfl
    · rw [player_setPlayer_other _ _ _ _ hq]
  | playCard i toBench =>
    unfold resolve
    cases hg : (s.player s.current).hand.get? i with
    | none => simp only [hg]
    | some c =>
      simp only [hg]
      cases hcat : c.category with
      | pokemon =>
        simp only [hcat]
        simp only [isLegal, hg, hcat, Bool.and_eq_true] at hleg
        cases toBench with
        | true =>
          rw [if_pos rfl, checkWin_player]
          by_cases hq : q = s.current
          · subst hq
            rw [player_setPlayer_same]
            exact cardMultiset_play_bench _ i c hg
          · rw [player_setPlayer_other _ _ _ _ hq]
        | false =>
          rw [if_neg Bool.false_ne_true, checkWin_player]
          have hnone : (s.player s.current).active = none := by
            obtain ⟨-, hleg2⟩ := hleg
            simpa using hleg2
          by_cases hq : q = s.current
          · subst hq
            rw [player_setPlayer_same]
            exact cardMultiset_play_active _ i c hg hnone
          · rw [player_setPlayer_other _ _ _ _ hq]
      | trainer =>
        simp only [hcat]
        rw [checkWin_player, registerEffect_player]
        by_cases hq : q = s.current
        · subst hq
          rw [player_setPlayer_same]
          exact cardMultiset_play_discard _ i c hg
        · rw [player_setPlayer_other _ _ _ _ hq]
      | energy => simp only [hcat]
  | attack i =>
    have hres : resolve s (.attack i) =
        (if (checkWin (resolveAttack s i)).outcome.isSome then
          checkWin (resolveAttack s i)
        else processTurnEnd (checkWin (resolveAttack s i))) := rfl
    rw [hres]
    by_cases ho : (checkWin (resolveAttack s i)).outcome.isSome
    · rw [if_pos ho, checkWin_player]
      exact cardMultiset_resolveAttack s i q
    · rw [if_neg ho]
      refine (cardMultiset_processTurnEnd _ q).trans ?_
      rw [checkWin_player]
      exact cardMultiset_resolveAttack s i q
  | useAbility t =>
    unfold resolve
    cases hg : (s.player s.current).getSlot t with
    | none => simp [hg]
    | some pc =>
      simp only [hg]
      cases hab : pc.card.ability with
      | none => simp [hab]
      | some ab =>
        simp only [hab]
        rw [checkWin_player, registerEffect_player]
        by_cases hq : q = s.current
        · subst hq
          rw [player_setPlayer_same]
          exact cardMultiset_modifySlot _ t _ fun pc => rfl
        · rw [player_setPlayer_other _ _ _ _ hq]
  | retreat i =>
    unfold resolve
    cases hact : (s.player s.current).active with
    | none => simp [hact]
    | some pc =>
      simp only [hact]
      cases hb : (s.player s.current).bench.get? i with
      | none => simp [hb]
      | some nb =>
        simp only [hb]
        by_cases ho : (checkWin (s.setPlayer s.current
            { s.player s.current with
              active := some nb,
              bench := modifyAt
                (fun _ => { pc with
                  attached := pc.attached.drop pc.card.retreatCost }) i
                (s.player s.current).bench })).outcome.isSome
        · rw [if_pos ho, checkWin_player]
          by_cases hq : q = s.current
          · subst hq
            rw [player_setPlayer_same]
            exact cardMultiset_retreat _ i pc nb _ hact hb rfl
          · rw [player_setPlayer_other _ _ _ _ hq]
        · rw [if_neg ho]
          refine (cardMultiset_processTurnEnd _ q).trans ?_
          rw [checkWin_player]
          by_cases hq : q = s.current
          · subst hq
            rw [player_setPlayer_same]
            exact cardMultiset_retreat _ i pc nb _ hact hb rfl
          · rw [player_setPlayer_other _ _ _ _ hq]
  | endTurn =>
    have hres : resolve s .endTurn =
        (if (checkWin s).outcome.isSome then checkWin s
        else processTurnEnd (checkWin s)) := rfl
    rw [hres]
    by_cases ho : (checkWin s).outcome.isSome
    · rw [if_pos ho, checkWin_player]
    · rw [if_neg ho]
      refine (cardMultiset_processTurnEnd _ q).trans ?_
      rw [checkWin_player]

/-- Conservation through one successful Resolver call. -/
theorem cardMultiset_applyAction (s : State) (a : Action) (s1 : State)
    (h : applyAction s a = .ok s1) (q : Player) :
    (s1.player q).cardMultiset = (s.player q).cardMultiset := by
  unfold applyAction at h
  by_cases ho : s.outcome.isSome
  · simp [ho] at h
  · rw [if_neg (by simpa using ho)] at h
    cases hleg : isLegal s a with
    | false => rw [hleg] at h; simp at h
    | true =>
      rw [hleg] at h
      simp only [if_true] at h
      obtain rfl : resolve s a = s1 := by
        simpa using h
      exact cardMultiset_resolve s a q hleg

/-- Setup conservation: each player starts with exactly the built deck's
card multiset (shuffling permutes, the opening draw splits it between
draw pile and hand). -/
theorem cardMultiset_initPlayer (d : Deck) (seed : Nat) :
    (initPlayer d seed).cardMultiset = (d.cards : Multiset Card) := by
  unfold initPlayer PlayerState.cardMultiset inPlayCards
  simp only [Option.toList_none, List.nil_append, List.map_nil,
    Multiset.coe_nil, add_zero, Multiset.coe_add]
  rw [Multiset.coe_eq_coe]
  exact (List.perm_append_comm.trans
    (by rw [List.take_append_drop])).trans (shuffle_perm d _)

/-- C4: for every State reachable from game Setup by legal actions, each
player's deck + hand + discard + in-play card multiset equals the
player's original deck contents, so its total size equals the original
deck size. -/
theorem card_multiset_conserved (da db : Deck) (seed : Nat) (s : State)
    (h : Reachable da db seed s) :
    ((s.player .a).cardMultiset = (da.cards : Multiset Card) ∧
     (s.player .b).cardMultiset = (db.cards : Multiset Card)) ∧
    (Multiset.card (s.player .a).cardMultiset = da.cards.length ∧
     Multiset.card (s.player .b).cardMultiset = db.cards.length) := by
  induction h with
  | init =>
    have ha : ((initGame da db seed).player .a).cardMultiset =
        (da.cards : Multiset Card) := cardMultiset_initPlayer da _
    have hb : ((initGame da db seed).player .b).cardMultiset =
        (db.cards : Multiset Card) := cardMultiset_initPlayer db _
    exact ⟨⟨ha, hb⟩, by rw [ha, Multiset.coe_card],
      by rw [hb, Multiset.coe_card]⟩
  | step hr happ ih =>
    obtain ⟨⟨iha, ihb⟩, ihca, ihcb⟩ := ih
    rename_i s0 a s1
    have ha := (cardMultiset_applyAction s0 a s1 happ .a).trans iha
    have hb := (cardMultiset_applyAction s0 a s1 happ .b).trans ihb
    exact ⟨⟨ha, hb⟩, by rw [ha, Multiset.coe_card],
      by rw [hb, Multiset.coe_card]⟩

/-- Witness for C4 at the initial state of a concrete game. -/
theorem card_multiset_conserved_witness :
    ((initGame sampleDeck sampleDeck 7).player .a).cardMultiset =
      (sampleDeck.cards : Multiset Card) ∧
    Multiset.card ((initGame sampleDeck sampleDeck 7).player .a).cardMultiset =
      sampleDeck.cards.length :=
  ⟨(card_multiset_conserved sampleDeck sampleDeck 7 _ Reachable.init).1.1,
   (card_multiset_conserved sampleDeck sampleDeck 7 _ Reachable.init).2.1⟩

end DeckGym
